import Mathlib

/-!
# YOLO post-processing (`process_output`, `iou`, `union`, `intersection`)

A shallow embedding of the decode / confidence-filter / NMS code of
`src/example1/main.go` and `src/example2/main.go` (the two files carry the same
`process_output`, `iou`, `union` and `intersection`).

Modelling conventions.

* `float32` / `float64` values are exact rationals: rounding and overflow are not
  modelled, and the buffer holds finite numbers.  The one division of the program, in `iou`, can have a zero divisor;
  its IEEE-754 results (`NaN`, `+Inf`, `-Inf`) are modelled by `F64`, together with
  the way Go compares them (`NaN < t` and `+Inf < t` are false, `-Inf < t` is true).
* `output[i]` and `yolo_classes[i]` on a Go slice panic when `i` is out of range;
  the embedding uses `Option`, `none` being the panic.
* The loop `for len(boxes) > 0` carries no bound in the source; `nmsLoop` takes
  fuel and returns `none` when the fuel is used up with boxes remaining.
* A box `[]interface{}{x1, y1, x2, y2, label, prob}` is the record `Box`.
-/

namespace Yolo

/-! ## Data model -/

/-- One box `[]interface{}{x1, y1, x2, y2, label, prob}` built by `process_output`. -/
structure Box where
  x1 : ℚ
  y1 : ℚ
  x2 : ℚ
  y2 : ℚ
  label : String
  prob : ℚ
deriving DecidableEq

/-- The package-level variables read by `process_output`. -/
structure Globals where
  yolover : String
  confidenceThreshold : ℚ
  nmsThreshold : ℚ
  PredSize : Nat
  NClasses : Nat
  yolo_classes : List String

/-- The values `init` gives the package-level variables: the defaults
`PredSize = 84`, `NClasses = 80`, overwritten for `yolover == "v5"` by
`NClasses = len(yolo_classes)` and `PredSize = NClasses + 5`. -/
def initGlobals (yolover : String) (classes : List String) (con nms : ℚ) : Globals :=
  if yolover = "v5" then
    { yolover := yolover, confidenceThreshold := con, nmsThreshold := nms,
      PredSize := classes.length + 5, NClasses := classes.length, yolo_classes := classes }
  else
    { yolover := yolover, confidenceThreshold := con, nmsThreshold := nms,
      PredSize := 84, NClasses := 80, yolo_classes := classes }

/-- The value of a `float64` division of two finite numbers. -/
inductive F64 where
  | nan : F64
  | posInf : F64
  | negInf : F64
  | fin (q : ℚ) : F64
deriving DecidableEq

/-- The quotient `a / b` of two finite floats: `0/0` is `NaN`, `a/0` is `±Inf`. -/
def fdiv (a b : ℚ) : F64 :=
  if b = 0 then
    if a = 0 then F64.nan else if 0 < a then F64.posInf else F64.negInf
  else F64.fin (a / b)

/-- Go's `v < t` for a finite `t`. -/
def F64.lt (v : F64) (t : ℚ) : Bool :=
  match v with
  | F64.nan => false
  | F64.posInf => false
  | F64.negInf => true
  | F64.fin q => decide (q < t)

/-- Go's `v >= t` for a finite `t`. -/
def F64.ge (v : F64) (t : ℚ) : Bool :=
  match v with
  | F64.nan => false
  | F64.posInf => true
  | F64.negInf => false
  | F64.fin q => decide (t ≤ q)

/-! ## `intersection`, `union`, `iou` -/

/-- The function `intersection`: `(min x2 - max x1) * (min y2 - max y1)`. -/
def intersection (box1 box2 : Box) : ℚ :=
  let x1 := max box1.x1 box2.x1
  let y1 := max box1.y1 box2.y1
  let x2 := min box1.x2 box2.x2
  let y2 := min box1.y2 box2.y2
  (x2 - x1) * (y2 - y1)

/-- The function `union`: `box1_area + box2_area - intersection(box1, box2)`. -/
def union (box1 box2 : Box) : ℚ :=
  let box1_area := (box1.x2 - box1.x1) * (box1.y2 - box1.y1)
  let box2_area := (box2.x2 - box2.x1) * (box2.y2 - box2.y1)
  box1_area + box2_area - intersection box1 box2

/-- The function `iou`: `intersection(box1, box2) / union(box1, box2)`. -/
def iou (box1 box2 : Box) : F64 :=
  fdiv (intersection box1 box2) (union box1 box2)

/-- The area `(x2 - x1) * (y2 - y1)` that `union` computes for each box. -/
def area (b : Box) : ℚ := (b.x2 - b.x1) * (b.y2 - b.y1)

/-! ## Decoding -/

/-- The inner loop `for col := 0; col < NClasses; col++` of both branches, over
the remaining columns `cols`, from the state `(class_id, prob)`; `idx col` is the
index read for column `col`. -/
def classLoop (output : List ℚ) (idx : Nat → Nat) :
    List Nat → Nat × ℚ → Option (Nat × ℚ)
  | [], st => some st
  | col :: cols, st =>
    match output[idx col]? with
    | none => none
    | some s =>
      if s > st.2 then classLoop output idx cols (col, s)
      else classLoop output idx cols st

/-- The box appended by either branch for centre-form `(xc, yc, w, h)`. -/
def mkBox (xc yc w h : ℚ) (img_width img_height : ℤ) (label : String) (prob : ℚ) : Box :=
  { x1 := (xc - w / 2) / 640 * (img_width : ℚ)
    y1 := (yc - h / 2) / 640 * (img_height : ℚ)
    x2 := (xc + w / 2) / 640 * (img_width : ℚ)
    y2 := (yc + h / 2) / 640 * (img_height : ℚ)
    label := label
    prob := prob }

/-- One iteration of the `yolover == "v5"` loop at `index`: `none` is a panic,
`some none` an iteration that appends nothing, `some (some b)` appends `b`. -/
def slotV5 (g : Globals) (output : List ℚ) (img_width img_height : ℤ) (index : Nat) :
    Option (Option Box) :=
  match output[g.PredSize * index + 4]? with
  | none => none
  | some obj =>
    if obj < g.confidenceThreshold then some none
    else
      match classLoop output (fun col => g.PredSize * index + 5 + col)
          (List.range g.NClasses) (0, 0) with
      | none => none
      | some (class_id, prob) =>
        if prob > 1 / 2 then
          match g.yolo_classes[class_id]?, output[g.PredSize * index]?,
              output[g.PredSize * index + 1]?, output[g.PredSize * index + 2]?,
              output[g.PredSize * index + 3]? with
          | some label, some xc, some yc, some w, some h =>
            some (some (mkBox xc yc w h img_width img_height label prob))
          | _, _, _, _, _ => none
        else some none

/-- One iteration of the other (anchor-free) loop at `index`. -/
def slotV8 (g : Globals) (output : List ℚ) (img_width img_height : ℤ) (index : Nat) :
    Option (Option Box) :=
  match classLoop output (fun col => 8400 * (col + 4) + index)
      (List.range g.NClasses) (0, 0) with
  | none => none
  | some (class_id, prob) =>
    if prob < g.confidenceThreshold then some none
    else
      match g.yolo_classes[class_id]?, output[index]?, output[8400 + index]?,
          output[2 * 8400 + index]?, output[3 * 8400 + index]? with
      | some label, some xc, some yc, some w, some h =>
        some (some (mkBox xc yc w h img_width img_height label prob))
      | _, _, _, _, _ => none

/-- The outer loop over the remaining indices, appending to `boxes`. -/
def decodeLoop (slot : Nat → Option (Option Box)) :
    List Nat → List Box → Option (List Box)
  | [], boxes => some boxes
  | index :: rest, boxes =>
    match slot index with
    | none => none
    | some none => decodeLoop slot rest boxes
    | some (some b) => decodeLoop slot rest (boxes ++ [b])

/-- The candidate list built by `process_output` before sorting. -/
def decode (g : Globals) (output : List ℚ) (img_width img_height : ℤ) :
    Option (List Box) :=
  if g.yolover = "v5" then
    decodeLoop (slotV5 g output img_width img_height) (List.range 25200) []
  else
    decodeLoop (slotV8 g output img_width img_height) (List.range 8400) []

/-! ## Sorting and NMS -/

/-- The call `sort.Slice(boxes, less)` with `less i j = boxes[i].prob < boxes[j].prob`:
an ascending sort by `prob`.  It is the insertion sort Go runs on slices shorter
than 12 elements (shift an element left while it is less than its predecessor).
On longer slices Go leaves the order of boxes of equal `prob` open; the results
below use `sortSlice` on two boxes of distinct `prob`, and otherwise only that its
output is a permutation of its input. -/
def sortSlice (boxes : List Box) : List Box :=
  List.insertionSort (fun a b => a.prob ≤ b.prob) boxes

/-- The loop `for len(boxes) > 0`: move `boxes[0]` to `result` and keep the boxes
`box` with `iou(boxes[0], box) < nmsThreshold`. `none`: fuel used up. -/
def nmsLoop (nmsThreshold : ℚ) : Nat → List Box → List Box → Option (List Box)
  | _, [], result => some result
  | 0, _ :: _, _ => none
  | fuel + 1, b0 :: rest, result =>
    nmsLoop nmsThreshold fuel
      ((b0 :: rest).filter (fun box => (iou b0 box).lt nmsThreshold)) (result ++ [b0])

/-- The sort and the NMS loop of `process_output`, on the candidate list. -/
def sortThenSuppress (nmsThreshold : ℚ) (fuel : Nat) (boxes : List Box) :
    Option (List Box) :=
  nmsLoop nmsThreshold fuel (sortSlice boxes) []

/-- What a call of `process_output` does. -/
inductive Outcome where
  | returns (result : List Box) : Outcome
  | panics : Outcome
  | outOfFuel : Outcome
deriving DecidableEq

/-- The function `process_output`. -/
def process_output (g : Globals) (fuel : Nat) (output : List ℚ)
    (img_width img_height : ℤ) : Outcome :=
  match decode g output img_width img_height with
  | none => Outcome.panics
  | some boxes =>
    match sortThenSuppress g.nmsThreshold fuel boxes with
    | none => Outcome.outOfFuel
    | some result => Outcome.returns result

/-- A buffer of `n` floats whose `i`-th element is `f i`. -/
def bufferOf (n : Nat) (f : Nat → ℚ) : List ℚ := (List.range n).map f

/-! ## Concrete inputs -/

/-- The unit square at the origin. -/
def unitBox : Box := { x1 := 0, y1 := 0, x2 := 1, y2 := 1, label := "a", prob := 9 / 10 }

/-- A unit square up and to the right of `unitBox`, disjoint from it in both axes. -/
def farBox : Box := { x1 := 2, y1 := 2, x2 := 3, y2 := 3, label := "b", prob := 19 / 20 }

/-- A unit square to the right of `unitBox`, disjoint from it in the x axis only. -/
def sideBox : Box := { x1 := 2, y1 := 0, x2 := 3, y2 := 1, label := "b", prob := 19 / 20 }

/-- A 10 x 10 box of confidence 0.9. -/
def boxLo : Box := { x1 := 0, y1 := 0, x2 := 10, y2 := 10, label := "a", prob := 9 / 10 }

/-- A 10 x 8 box of confidence 0.95 inside `boxLo`: their IoU is 0.8. -/
def boxHi : Box := { x1 := 0, y1 := 0, x2 := 10, y2 := 8, label := "b", prob := 19 / 20 }

/-- A box of zero width and height. -/
def pointA : Box := { x1 := 0, y1 := 0, x2 := 0, y2 := 0, label := "a", prob := 7 / 10 }

/-- A second box of zero width and height at the same place. -/
def pointB : Box := { x1 := 0, y1 := 0, x2 := 0, y2 := 0, label := "b", prob := 4 / 5 }

/-- The label file of a one-class model. -/
def oneClass : List String := ["object"]

/-- A label file of 80 lines. -/
def labels80 : List String := "person" :: "bicycle" :: List.replicate 78 "other"

/-- The globals after `init` with `-ver v5`, the label file `oneClass`, `-con con`
and the default `-nms 0.5`. -/
def globalsV5 (con : ℚ) : Globals := initGlobals "v5" oneClass con (1 / 2)

/-- The globals after `init` with the default `-ver v8`, the label file `labels80`,
`-con con` and the default `-nms 0.5`. -/
def globalsV8 (con : ℚ) : Globals := initGlobals "v8" labels80 con (1 / 2)

/-- An anchor-based output of 25200 slots of 6 floats: slot 0 is the full-frame box
`xc = yc = 320, w = h = 640` with objectness 0.9 and class score 0.6, the rest is 0. -/
def bufV5 : List ℚ :=
  bufferOf (25200 * 6) (fun i =>
    if 6 ≤ i then 0 else if i = 4 then 9 / 10 else if i = 5 then 3 / 5
    else if i < 2 then 320 else 640)

/-- An anchor-free output of 84 channels of 8400 floats: slot 0 is the full-frame box
`xc = yc = 320, w = h = 640` with class scores 0.9 for classes 0 and 1, the rest is 0. -/
def bufV8 : List ℚ :=
  bufferOf (8400 * 84) (fun i =>
    if i = 0 then 320 else if i = 8400 then 320 else if i = 16800 then 640
    else if i = 25200 then 640 else if i = 33600 then 9 / 10
    else if i = 42000 then 9 / 10 else 0)

/-- The box both example buffers hold in slot 0, on a 1280 x 720 image. -/
def fullFrame (label : String) (prob : ℚ) : Box :=
  { x1 := 0, y1 := 0, x2 := 1280, y2 := 720, label := label, prob := prob }

/-- An anchor-free output, well-sized for 80 classes: every slot is the full-frame box
`xc = yc = 320, w = h = 640` and every class score is `-1`. -/
def bufV8neg : List ℚ :=
  bufferOf (8400 * 84) (fun i => if i < 16800 then 320 else if i < 33600 then 640 else -1)

/-- An anchor-free output of zeros, one element longer than 84 channels of 8400. -/
def bufV8long : List ℚ := bufferOf (8400 * 84 + 1) (fun _ => 0)

/-- An anchor-based output of zeros, one element shorter than 25200 slots of 6. -/
def bufV5short : List ℚ := bufferOf (25200 * 6 - 1) (fun _ => 0)

/-- An anchor-free output of zeros, one element shorter than 84 channels of 8400. -/
def bufV8short : List ℚ := bufferOf (8400 * 84 - 1) (fun _ => 0)

/-- A well-sized anchor-free output of zeros. -/
def bufV8zero : List ℚ := bufferOf (8400 * 84) (fun _ => 0)

/-- A well-sized anchor-based output of zeros. -/
def bufV5zero : List ℚ := bufferOf (25200 * 6) (fun _ => 0)

/-- An anchor-based output of zeros, one element longer than 25200 slots of 6. -/
def bufV5long : List ℚ := bufferOf (25200 * 6 + 1) (fun _ => 0)

/-! ## Lemmas on `iou` -/

lemma intersection_comm (a b : Box) : intersection a b = intersection b a := by
  simp only [intersection, max_comm a.x1, max_comm a.y1, min_comm a.x2, min_comm a.y2]

lemma union_comm (a b : Box) : union a b = union b a := by
  simp only [union, intersection_comm a b]
  ring

lemma iou_comm (a b : Box) : iou a b = iou b a := by
  simp only [iou, intersection_comm a b, union_comm a b]

lemma intersection_self (b : Box) : intersection b b = area b := by
  simp [intersection, area]

lemma union_self (b : Box) : union b b = area b := by
  simp [union, intersection, area]

lemma iou_self (b : Box) :
    iou b b = if area b = 0 then F64.nan else F64.fin 1 := by
  unfold iou fdiv
  rw [intersection_self, union_self]
  by_cases h : area b = 0
  · simp [h]
  · simp [h]

lemma iou_self_not_lt (b : Box) (t : ℚ) (ht : t ≤ 1) : (iou b b).lt t = false := by
  rw [iou_self]
  by_cases h : area b = 0
  · simp [h, F64.lt]
  · simp [h, F64.lt, ht]

lemma lt_true_ge_false (v : F64) (t : ℚ) (h : v.lt t = true) : v.ge t = false := by
  cases v <;> simp_all [F64.lt, F64.ge]

lemma ge_true_lt_false (v : F64) (t : ℚ) (h : v.ge t = true) : v.lt t = false := by
  cases v <;> simp_all [F64.lt, F64.ge]

/-! ## Lemmas on `nmsLoop` -/

/-- One round's filter: the boxes kept against `b0`. -/
lemma filter_length_lt (t : ℚ) (ht : t ≤ 1) (b0 : Box) (rest : List Box) :
    ((b0 :: rest).filter (fun box => (iou b0 box).lt t)).length < (b0 :: rest).length := by
  rw [List.filter_cons_of_neg (by simp [iou_self_not_lt b0 t ht])]
  exact Nat.lt_succ_of_le (List.length_filter_le _ _)

lemma nmsLoop_terminates (t : ℚ) (ht : t ≤ 1) :
    ∀ (fuel : Nat) (boxes result : List Box), boxes.length ≤ fuel →
      ∃ res, nmsLoop t fuel boxes result = some res := by
  intro fuel
  induction fuel with
  | zero =>
    intro boxes result h
    cases boxes with
    | nil => exact ⟨result, rfl⟩
    | cons b0 rest => simp at h
  | succ n ih =>
    intro boxes result h
    cases boxes with
    | nil => exact ⟨result, rfl⟩
    | cons b0 rest =>
      have hlt := filter_length_lt t ht b0 rest
      simp only [nmsLoop]
      apply ih
      have : (b0 :: rest).length ≤ n + 1 := h
      omega

/-- A head box that passes its own test is selected again and again. -/
lemma nmsLoop_diverges (t : ℚ) (b0 : Box) (hb : (iou b0 b0).lt t = true) :
    ∀ (fuel : Nat) (rest result : List Box), nmsLoop t fuel (b0 :: rest) result = none := by
  intro fuel
  induction fuel with
  | zero => intro rest result; rfl
  | succ n ih =>
    intro rest result
    simp only [nmsLoop]
    rw [List.filter_cons_of_pos (by simpa using hb)]
    exact ih _ _

/-- What a returned NMS result looks like. -/
lemma nmsLoop_spec (t : ℚ) :
    ∀ (fuel : Nat) (boxes result res : List Box),
      nmsLoop t fuel boxes result = some res →
      ∃ kept, res = result ++ kept ∧ (∀ k ∈ kept, k ∈ boxes) ∧
        kept.Pairwise (fun a b => (iou a b).lt t = true) ∧
        (∀ c ∈ boxes, c ∉ kept → ∃ k ∈ kept, (iou k c).lt t = false) := by
  intro fuel
  induction fuel with
  | zero =>
    intro boxes result res h
    cases boxes with
    | nil =>
      simp only [nmsLoop, Option.some.injEq] at h
      exact ⟨[], by simp [h], by simp, List.Pairwise.nil, by simp⟩
    | cons b0 rest => simp [nmsLoop] at h
  | succ n ih =>
    intro boxes result res h
    cases boxes with
    | nil =>
      simp only [nmsLoop, Option.some.injEq] at h
      exact ⟨[], by simp [h], by simp, List.Pairwise.nil, by simp⟩
    | cons b0 rest =>
      simp only [nmsLoop] at h
      obtain ⟨kept, hres, hmem, hpw, hsupp⟩ := ih _ _ _ h
      refine ⟨b0 :: kept, by simp [hres], ?_, ?_, ?_⟩
      · intro k hk
        rcases List.mem_cons.1 hk with rfl | hk
        · exact List.mem_cons_self _ _
        · exact (List.mem_filter.1 (hmem k hk)).1
      · refine List.Pairwise.cons ?_ hpw
        intro x hx
        simpa using (List.mem_filter.1 (hmem x hx)).2
      · intro c hc hck
        have hc0 : c ≠ b0 := fun e => hck (by simp [e])
        have hck2 : c ∉ kept := fun e => hck (List.mem_cons_of_mem _ e)
        by_cases hp : (iou b0 c).lt t = true
        · have hcf : c ∈ (b0 :: rest).filter (fun box => (iou b0 box).lt t) :=
            List.mem_filter.2 ⟨hc, by simpa using hp⟩
          obtain ⟨k, hk, hkc⟩ := hsupp c hcf hck2
          exact ⟨k, List.mem_cons_of_mem _ hk, hkc⟩
        · exact ⟨b0, List.mem_cons_self _ _, by simpa using hp⟩

/-- In a returned NMS result, boxes at distinct positions pass the test. -/
lemma nmsLoop_pairwise (t : ℚ) (fuel : Nat) (boxes res : List Box)
    (h : nmsLoop t fuel boxes [] = some res) (i j : Nat) (hi : i < res.length)
    (hj : j < res.length) (hij : i ≠ j) : (iou res[i] res[j]).lt t = true := by
  obtain ⟨kept, hres, -, hpw, -⟩ := nmsLoop_spec t fuel boxes [] res h
  simp only [List.nil_append] at hres
  subst hres
  rcases Nat.lt_or_gt_of_ne hij with hlt | hgt
  · exact (List.pairwise_iff_getElem.1 hpw) i j hi hj hlt
  · rw [iou_comm]
    exact (List.pairwise_iff_getElem.1 hpw) j i hj hi hgt

/-! ## Lemmas on the class scan -/

/-- The scan over columns `s, s+1, ..., s+n-1`: the state it returns. -/
lemma classLoop_range' (output : List ℚ) (idx : Nat → Nat) :
    ∀ (n s : Nat) (st res : Nat × ℚ),
      classLoop output idx (List.range' s n) st = some res →
      st.2 ≤ res.2 ∧
      (∀ c, s ≤ c → c < s + n → ∃ v, output[idx c]? = some v ∧ v ≤ res.2) ∧
      (res = st ∨
        (s ≤ res.1 ∧ res.1 < s + n ∧ output[idx res.1]? = some res.2 ∧ st.2 < res.2 ∧
          ∀ c, s ≤ c → c < res.1 → ∃ v, output[idx c]? = some v ∧ v < res.2)) := by
  intro n
  induction n with
  | zero =>
    intro s st res h
    simp only [List.range'_zero, classLoop, Option.some.injEq] at h
    subst h
    exact ⟨le_refl _, fun c h1 h2 => by omega, Or.inl rfl⟩
  | succ n ih =>
    intro s st res h
    rw [List.range'_succ] at h
    simp only [classLoop] at h
    cases hv : output[idx s]? with
    | none => simp [hv] at h
    | some v =>
      simp only [hv] at h
      by_cases hgt : v > st.2
      · rw [if_pos hgt] at h
        obtain ⟨h1, h2, h3⟩ := ih (s + 1) (s, v) res h
        have hvres : v ≤ res.2 := h1
        refine ⟨le_trans (le_of_lt hgt) hvres, ?_, Or.inr ?_⟩
        · intro c hc1 hc2
          rcases Nat.eq_or_lt_of_le hc1 with e | hlt
          · subst e; exact ⟨v, hv, hvres⟩
          · exact h2 c hlt (by omega)
        · rcases h3 with e | ⟨g1, g2, g3, g4, g5⟩
          · subst e
            exact ⟨le_refl _, by simp, hv, hgt, fun c hc1 hc2 => by
              have : c < s := hc2
              omega⟩
          · refine ⟨by omega, by omega, g3, lt_trans hgt g4, ?_⟩
            intro c hc1 hc2
            rcases Nat.eq_or_lt_of_le hc1 with e | hlt
            · subst e; exact ⟨v, hv, g4⟩
            · exact g5 c hlt hc2
      · rw [if_neg hgt] at h
        obtain ⟨h1, h2, h3⟩ := ih (s + 1) st res h
        have hvst : v ≤ st.2 := not_lt.1 hgt
        refine ⟨h1, ?_, ?_⟩
        · intro c hc1 hc2
          rcases Nat.eq_or_lt_of_le hc1 with e | hlt
          · subst e; exact ⟨v, hv, le_trans hvst h1⟩
          · exact h2 c hlt (by omega)
        · rcases h3 with e | ⟨g1, g2, g3, g4, g5⟩
          · exact Or.inl e
          · refine Or.inr ⟨by omega, by omega, g3, g4, ?_⟩
            intro c hc1 hc2
            rcases Nat.eq_or_lt_of_le hc1 with e | hlt
            · subst e; exact ⟨v, hv, lt_of_le_of_lt hvst g4⟩
            · exact g5 c hlt hc2

/-- The scan of `process_output`, from `class_id, prob := 0, 0.0` over all columns. -/
lemma classLoop_range (output : List ℚ) (idx : Nat → Nat) (n : Nat) (res : Nat × ℚ)
    (h : classLoop output idx (List.range n) (0, 0) = some res) :
    0 ≤ res.2 ∧
    (∀ c, c < n → ∃ v, output[idx c]? = some v ∧ v ≤ res.2) ∧
    (res = (0, 0) ∨
      (res.1 < n ∧ output[idx res.1]? = some res.2 ∧ 0 < res.2 ∧
        ∀ c, c < res.1 → ∃ v, output[idx c]? = some v ∧ v < res.2)) := by
  rw [List.range_eq_range'] at h
  obtain ⟨h1, h2, h3⟩ := classLoop_range' output idx n 0 (0, 0) res h
  refine ⟨h1, fun c hc => h2 c (Nat.zero_le _) (by omega), ?_⟩
  rcases h3 with e | ⟨-, g2, g3, g4, g5⟩
  · exact Or.inl e
  · exact Or.inr ⟨by omega, g3, g4, fun c hc => g5 c (Nat.zero_le _) hc⟩

/-- The scan returns when every index it reads is in range. -/
lemma classLoop_isSome (output : List ℚ) (idx : Nat → Nat) :
    ∀ (cols : List Nat) (st : Nat × ℚ), (∀ c ∈ cols, idx c < output.length) →
      ∃ res, classLoop output idx cols st = some res := by
  intro cols
  induction cols with
  | nil => intro st _; exact ⟨st, rfl⟩
  | cons c cols ih =>
    intro st h
    have hc : idx c < output.length := h c (List.mem_cons_self _ _)
    simp only [classLoop, List.getElem?_eq_getElem hc]
    split
    · exact ih _ (fun c hc => h c (List.mem_cons_of_mem _ hc))
    · exact ih _ (fun c hc => h c (List.mem_cons_of_mem _ hc))

/-- The scan panics when one index it reads is out of range. -/
lemma classLoop_none (output : List ℚ) (idx : Nat → Nat) :
    ∀ (cols : List Nat) (st : Nat × ℚ) (c : Nat), c ∈ cols → output.length ≤ idx c →
      classLoop output idx cols st = none := by
  intro cols
  induction cols with
  | nil => intro st c hc; simp at hc
  | cons d cols ih =>
    intro st c hc hlen
    simp only [classLoop]
    cases hv : output[idx d]? with
    | none => rfl
    | some v =>
      have hd : c ≠ d := by
        rintro rfl
        rw [List.getElem?_eq_none hlen] at hv
        exact Option.noConfusion hv
      have hc2 : c ∈ cols := by
        rcases List.mem_cons.1 hc with e | e
        · exact absurd e hd
        · exact e
      simp only []
      split
      · exact ih _ c hc2 hlen
      · exact ih _ c hc2 hlen

/-- The scan depends only on the elements it reads. -/
lemma classLoop_congr (o1 o2 : List ℚ) (idx : Nat → Nat) :
    ∀ (cols : List Nat) (st : Nat × ℚ), (∀ c ∈ cols, o1[idx c]? = o2[idx c]?) →
      classLoop o1 idx cols st = classLoop o2 idx cols st := by
  intro cols
  induction cols with
  | nil => intro st _; rfl
  | cons c cols ih =>
    intro st h
    simp only [classLoop, h c (List.mem_cons_self _ _)]
    have ih2 := fun st => ih st (fun c hc => h c (List.mem_cons_of_mem _ hc))
    cases o2[idx c]? with
    | none => rfl
    | some v => simp only [ih2]

/-! ## Lemmas on the outer loop -/

/-- The outer loop returns when no iteration panics, and appends the boxes of the
iterations in order. -/
lemma decodeLoop_eq_some (slot : Nat → Option (Option Box)) :
    ∀ (idxs : List Nat) (boxes : List Box), (∀ i ∈ idxs, slot i ≠ none) →
      decodeLoop slot idxs boxes = some (boxes ++ idxs.filterMap (fun i => (slot i).join)) := by
  intro idxs
  induction idxs with
  | nil => intro boxes _; simp [decodeLoop]
  | cons i rest ih =>
    intro boxes h
    have hi := h i (List.mem_cons_self _ _)
    have hrest : ∀ j ∈ rest, slot j ≠ none := fun j hj => h j (List.mem_cons_of_mem _ hj)
    simp only [decodeLoop]
    cases hs : slot i with
    | none => exact absurd hs hi
    | some ob =>
      cases ob with
      | none => simp [ih _ hrest, List.filterMap_cons, hs]
      | some b => simp [ih _ hrest, List.filterMap_cons, hs]

/-- The outer loop panics when one iteration does. -/
lemma decodeLoop_none (slot : Nat → Option (Option Box)) :
    ∀ (idxs : List Nat) (boxes : List Box) (i : Nat), i ∈ idxs → slot i = none →
      decodeLoop slot idxs boxes = none := by
  intro idxs
  induction idxs with
  | nil => intro boxes i hi; simp at hi
  | cons j rest ih =>
    intro boxes i hi hs
    simp only [decodeLoop]
    cases hj : slot j with
    | none => rfl
    | some ob =>
      have hne : i ≠ j := by
        rintro rfl
        rw [hs] at hj
        exact Option.noConfusion hj
      have hi2 : i ∈ rest := by
        rcases List.mem_cons.1 hi with e | e
        · exact absurd e hne
        · exact e
      cases ob with
      | none => exact ih _ i hi2 hs
      | some b => exact ih _ i hi2 hs

/-- A returned candidate list: no iteration panicked. -/
lemma decodeLoop_some_inv (slot : Nat → Option (Option Box)) (idxs : List Nat)
    (boxes res : List Box) (h : decodeLoop slot idxs boxes = some res) :
    (∀ i ∈ idxs, slot i ≠ none) ∧
      res = boxes ++ idxs.filterMap (fun i => (slot i).join) := by
  have hall : ∀ i ∈ idxs, slot i ≠ none := by
    intro i hi hs
    rw [decodeLoop_none slot idxs boxes i hi hs] at h
    exact Option.noConfusion h
  refine ⟨hall, ?_⟩
  rw [decodeLoop_eq_some slot idxs boxes hall] at h
  exact (Option.some.inj h).symm

/-- Every candidate comes from an iteration. -/
lemma decodeLoop_mem (slot : Nat → Option (Option Box)) (idxs : List Nat)
    (res : List Box) (h : decodeLoop slot idxs [] = some res) (b : Box) :
    b ∈ res ↔ ∃ i ∈ idxs, slot i = some (some b) := by
  obtain ⟨-, hres⟩ := decodeLoop_some_inv slot idxs [] res h
  subst hres
  simp only [List.nil_append, List.mem_filterMap]
  constructor
  · rintro ⟨i, hi, hb⟩
    refine ⟨i, hi, ?_⟩
    cases hs : slot i with
    | none => simp [hs] at hb
    | some ob =>
      cases ob with
      | none => simp [hs] at hb
      | some c =>
        simp [hs] at hb
        rw [hb]
  · rintro ⟨i, hi, hs⟩
    exact ⟨i, hi, by simp [hs]⟩

/-- The outer loop depends only on the iterations it runs. -/
lemma decodeLoop_congr (s1 s2 : Nat → Option (Option Box)) :
    ∀ (idxs : List Nat) (boxes : List Box), (∀ i ∈ idxs, s1 i = s2 i) →
      decodeLoop s1 idxs boxes = decodeLoop s2 idxs boxes := by
  intro idxs
  induction idxs with
  | nil => intro boxes _; rfl
  | cons i rest ih =>
    intro boxes h
    simp only [decodeLoop, h i (List.mem_cons_self _ _)]
    have ih2 := fun bs => ih bs (fun j hj => h j (List.mem_cons_of_mem _ hj))
    cases s2 i with
    | none => rfl
    | some ob =>
      cases ob with
      | none => simp only [ih2]
      | some b => simp only [ih2]

/-! ## Lemmas on sorting and the whole function -/

lemma sortSlice_perm (boxes : List Box) : (sortSlice boxes).Perm boxes :=
  List.perm_insertionSort _ boxes

lemma mem_sortSlice (boxes : List Box) (b : Box) : b ∈ sortSlice boxes ↔ b ∈ boxes :=
  (sortSlice_perm boxes).mem_iff

/-- A returned result is made of candidates. -/
lemma process_output_returns (g : Globals) (fuel : Nat) (output : List ℚ)
    (img_width img_height : ℤ) (res : List Box)
    (h : process_output g fuel output img_width img_height = Outcome.returns res) :
    ∃ boxes, decode g output img_width img_height = some boxes ∧
      nmsLoop g.nmsThreshold fuel (sortSlice boxes) [] = some res ∧
      ∀ b ∈ res, b ∈ boxes := by
  unfold process_output at h
  cases hd : decode g output img_width img_height with
  | none => simp [hd] at h
  | some boxes =>
    simp only [hd, sortThenSuppress] at h
    cases hn : nmsLoop g.nmsThreshold fuel (sortSlice boxes) [] with
    | none => simp [hn] at h
    | some r =>
      simp only [hn, Outcome.returns.injEq] at h
      subst h
      refine ⟨boxes, rfl, hn, ?_⟩
      obtain ⟨kept, hres, hmem, -, -⟩ := nmsLoop_spec _ _ _ _ _ hn
      simp only [List.nil_append] at hres
      subst hres
      exact fun b hb => (mem_sortSlice boxes b).1 (hmem b hb)

/-- An empty candidate list gives the empty result. -/
lemma process_output_of_decode_nil (g : Globals) (fuel : Nat) (output : List ℚ)
    (img_width img_height : ℤ) (h : decode g output img_width img_height = some []) :
    process_output g fuel output img_width img_height = Outcome.returns [] := by
  unfold process_output sortThenSuppress
  rw [h]
  cases fuel <;> rfl

/-! ## Lemmas on one iteration -/

/-- An anchor-free iteration that appends a box. -/
lemma slotV8_some (g : Globals) (output : List ℚ) (W H : ℤ) (index : Nat) (b : Box)
    (hs : slotV8 g output W H index = some (some b)) :
    ∃ class_id prob label xc yc w h,
      classLoop output (fun col => 8400 * (col + 4) + index) (List.range g.NClasses) (0, 0)
        = some (class_id, prob) ∧
      g.confidenceThreshold ≤ prob ∧ g.yolo_classes[class_id]? = some label ∧
      output[index]? = some xc ∧ output[8400 + index]? = some yc ∧
      output[2 * 8400 + index]? = some w ∧ output[3 * 8400 + index]? = some h ∧
      b = mkBox xc yc w h W H label prob := by
  unfold slotV8 at hs
  cases hc : classLoop output (fun col => 8400 * (col + 4) + index)
      (List.range g.NClasses) (0, 0) with
  | none => rw [hc] at hs; exact Option.noConfusion hs
  | some st =>
    obtain ⟨class_id, prob⟩ := st
    rw [hc] at hs
    simp only [] at hs
    by_cases hp : prob < g.confidenceThreshold
    · simp [hp] at hs
    · rw [if_neg hp] at hs
      cases h1 : g.yolo_classes[class_id]? <;> cases h2 : output[index]? <;>
        cases h3 : output[8400 + index]? <;> cases h4 : output[2 * 8400 + index]? <;>
        cases h5 : output[3 * 8400 + index]? <;> simp [h1, h2, h3, h4, h5] at hs
      exact ⟨class_id, prob, _, _, _, _, _, rfl, not_lt.1 hp, h1, rfl, rfl, rfl, rfl, hs.symm⟩

/-- An anchor-based iteration that appends a box. -/
lemma slotV5_some (g : Globals) (output : List ℚ) (W H : ℤ) (index : Nat) (b : Box)
    (hs : slotV5 g output W H index = some (some b)) :
    ∃ obj class_id prob label xc yc w h,
      output[g.PredSize * index + 4]? = some obj ∧ g.confidenceThreshold ≤ obj ∧
      classLoop output (fun col => g.PredSize * index + 5 + col) (List.range g.NClasses) (0, 0)
        = some (class_id, prob) ∧
      1 / 2 < prob ∧ g.yolo_classes[class_id]? = some label ∧
      output[g.PredSize * index]? = some xc ∧ output[g.PredSize * index + 1]? = some yc ∧
      output[g.PredSize * index + 2]? = some w ∧ output[g.PredSize * index + 3]? = some h ∧
      b = mkBox xc yc w h W H label prob := by
  unfold slotV5 at hs
  cases ho : output[g.PredSize * index + 4]? with
  | none => simp [ho] at hs
  | some obj =>
    simp only [ho] at hs
    by_cases hobj : obj < g.confidenceThreshold
    · simp [hobj] at hs
    · rw [if_neg hobj] at hs
      cases hc : classLoop output (fun col => g.PredSize * index + 5 + col)
          (List.range g.NClasses) (0, 0) with
      | none => rw [hc] at hs; exact Option.noConfusion hs
      | some st =>
        obtain ⟨class_id, prob⟩ := st
        rw [hc] at hs
        simp only [] at hs
        by_cases hp : prob > 1 / 2
        · rw [if_pos hp] at hs
          cases h1 : g.yolo_classes[class_id]? <;> cases h2 : output[g.PredSize * index]? <;>
            cases h3 : output[g.PredSize * index + 1]? <;>
            cases h4 : output[g.PredSize * index + 2]? <;>
            cases h5 : output[g.PredSize * index + 3]? <;>
            simp [h1, h2, h3, h4, h5] at hs
          exact ⟨obj, class_id, prob, _, _, _, _, _, rfl, not_lt.1 hobj, rfl, hp, h1, rfl,
            rfl, rfl, rfl, hs.symm⟩
        · rw [if_neg hp] at hs
          exact absurd (Option.some.inj hs) (by simp)

/-! ## Evaluating the decoder -/

lemma bufferOf_length (n : Nat) (f : Nat → ℚ) : (bufferOf n f).length = n := by
  simp [bufferOf]

lemma bufferOf_get (n : Nat) (f : Nat → ℚ) (i : Nat) (h : i < n) :
    (bufferOf n f)[i]? = some (f i) := by
  simp [bufferOf, List.getElem?_range h]

/-- A scan over scores none of which exceeds the current `prob` changes nothing. -/
lemma classLoop_stay (output : List ℚ) (idx : Nat → Nat) :
    ∀ (cols : List Nat) (st : Nat × ℚ),
      (∀ c ∈ cols, ∃ v, output[idx c]? = some v ∧ v ≤ st.2) →
      classLoop output idx cols st = some st := by
  intro cols
  induction cols with
  | nil => intro st _; rfl
  | cons c cols ih =>
    intro st h
    obtain ⟨v, hv, hle⟩ := h c (List.mem_cons_self _ _)
    simp only [classLoop, hv]
    rw [if_neg (not_lt.2 hle)]
    exact ih st (fun c hc => h c (List.mem_cons_of_mem _ hc))

/-- A scan whose first score is positive and is not exceeded later. -/
lemma classLoop_first (output : List ℚ) (idx : Nat → Nat) (n : Nat) (v : ℚ)
    (h0 : output[idx 0]? = some v) (hv : 0 < v)
    (hrest : ∀ c, 1 ≤ c → c < n + 1 → ∃ u, output[idx c]? = some u ∧ u ≤ v) :
    classLoop output idx (List.range (n + 1)) (0, 0) = some (0, v) := by
  rw [List.range_eq_range', List.range'_succ]
  simp only [classLoop, h0]
  rw [if_pos hv]
  apply classLoop_stay
  intro c hc
  obtain ⟨h1, h2⟩ := List.mem_range'_1.1 hc
  exact hrest c h1 (by omega)

lemma slotV8_eval (g : Globals) (output : List ℚ) (W H : ℤ) (index class_id : Nat)
    (prob xc yc w h : ℚ) (label : String)
    (hc : classLoop output (fun col => 8400 * (col + 4) + index) (List.range g.NClasses) (0, 0)
      = some (class_id, prob))
    (hp : g.confidenceThreshold ≤ prob) (hl : g.yolo_classes[class_id]? = some label)
    (h1 : output[index]? = some xc) (h2 : output[8400 + index]? = some yc)
    (h3 : output[2 * 8400 + index]? = some w) (h4 : output[3 * 8400 + index]? = some h) :
    slotV8 g output W H index = some (some (mkBox xc yc w h W H label prob)) := by
  unfold slotV8
  rw [hc]
  simp only []
  rw [if_neg (not_lt.2 hp), hl, h1, h2, h3, h4]

lemma slotV8_skip (g : Globals) (output : List ℚ) (W H : ℤ) (index class_id : Nat)
    (prob : ℚ)
    (hc : classLoop output (fun col => 8400 * (col + 4) + index) (List.range g.NClasses) (0, 0)
      = some (class_id, prob))
    (hp : prob < g.confidenceThreshold) :
    slotV8 g output W H index = some none := by
  unfold slotV8
  rw [hc]
  simp only []
  rw [if_pos hp]

lemma slotV5_eval (g : Globals) (output : List ℚ) (W H : ℤ) (index class_id : Nat)
    (obj prob xc yc w h : ℚ) (label : String)
    (ho : output[g.PredSize * index + 4]? = some obj) (hobj : g.confidenceThreshold ≤ obj)
    (hc : classLoop output (fun col => g.PredSize * index + 5 + col) (List.range g.NClasses)
      (0, 0) = some (class_id, prob))
    (hp : 1 / 2 < prob) (hl : g.yolo_classes[class_id]? = some label)
    (h1 : output[g.PredSize * index]? = some xc)
    (h2 : output[g.PredSize * index + 1]? = some yc)
    (h3 : output[g.PredSize * index + 2]? = some w)
    (h4 : output[g.PredSize * index + 3]? = some h) :
    slotV5 g output W H index = some (some (mkBox xc yc w h W H label prob)) := by
  unfold slotV5
  rw [ho]
  simp only []
  rw [if_neg (not_lt.2 hobj), hc]
  simp only []
  rw [if_pos hp, hl, h1, h2, h3, h4]

lemma slotV5_skip (g : Globals) (output : List ℚ) (W H : ℤ) (index : Nat) (obj : ℚ)
    (ho : output[g.PredSize * index + 4]? = some obj) (hobj : obj < g.confidenceThreshold) :
    slotV5 g output W H index = some none := by
  unfold slotV5
  rw [ho]
  simp only []
  rw [if_pos hobj]

/-- The outer loop when no iteration appends a box. -/
lemma decodeLoop_all_skip (slot : Nat → Option (Option Box)) (idxs : List Nat)
    (h : ∀ i ∈ idxs, slot i = some none) : decodeLoop slot idxs [] = some [] := by
  rw [decodeLoop_eq_some slot idxs [] (fun i hi => by rw [h i hi]; simp)]
  have : idxs.filterMap (fun i => (slot i).join) = [] :=
    List.filterMap_eq_nil_iff.2 (fun i hi => by rw [h i hi]; rfl)
  rw [this]
  rfl

/-- The outer loop when iteration 0 alone appends a box. -/
lemma decodeLoop_range_single (slot : Nat → Option (Option Box)) (n : Nat) (b : Box)
    (hn : 0 < n) (h0 : slot 0 = some (some b))
    (hrest : ∀ i, 1 ≤ i → i < n → slot i = some none) :
    decodeLoop slot (List.range n) [] = some [b] := by
  obtain ⟨m, rfl⟩ : ∃ m, n = m + 1 := ⟨n - 1, by omega⟩
  rw [List.range_eq_range', List.range'_succ]
  simp only [decodeLoop, h0, List.nil_append]
  rw [decodeLoop_eq_some]
  · have : (List.range' (0 + 1) m).filterMap (fun i => (slot i).join) = [] := by
      apply List.filterMap_eq_nil_iff.2
      intro i hi
      obtain ⟨h1, h2⟩ := List.mem_range'_1.1 hi
      rw [hrest i (by omega) (by omega)]
      rfl
    rw [this]
    rfl
  · intro i hi
    obtain ⟨h1, h2⟩ := List.mem_range'_1.1 hi
    rw [hrest i (by omega) (by omega)]
    simp

/-- The sort and the NMS loop on one candidate. -/
lemma process_output_single (g : Globals) (fuel : Nat) (output : List ℚ) (W H : ℤ) (b : Box)
    (hd : decode g output W H = some [b]) (ht : g.nmsThreshold ≤ 1) (hfuel : 1 ≤ fuel) :
    process_output g fuel output W H = Outcome.returns [b] := by
  obtain ⟨n, rfl⟩ : ∃ n, fuel = n + 1 := ⟨fuel - 1, by omega⟩
  have hend : ∀ (r : List Box), nmsLoop g.nmsThreshold n [] r = some r := by
    intro r; cases n <;> rfl
  unfold process_output sortThenSuppress
  rw [hd]
  simp [sortSlice, nmsLoop, iou_self_not_lt b _ ht, hend]

lemma mkBox_fullFrame (label : String) (prob : ℚ) :
    mkBox 320 320 640 640 1280 720 label prob = fullFrame label prob := by
  norm_num [mkBox, fullFrame]

lemma globalsV5_fields (con : ℚ) :
    (globalsV5 con).yolover = "v5" ∧ (globalsV5 con).confidenceThreshold = con ∧
      (globalsV5 con).nmsThreshold = 1 / 2 ∧ (globalsV5 con).PredSize = 6 ∧
      (globalsV5 con).NClasses = 1 ∧ (globalsV5 con).yolo_classes = oneClass := by
  simp [globalsV5, initGlobals, oneClass]

lemma globalsV8_fields (con : ℚ) :
    (globalsV8 con).yolover = "v8" ∧ (globalsV8 con).confidenceThreshold = con ∧
      (globalsV8 con).nmsThreshold = 1 / 2 ∧ (globalsV8 con).PredSize = 84 ∧
      (globalsV8 con).NClasses = 80 ∧ (globalsV8 con).yolo_classes = labels80 := by
  simp [globalsV8, initGlobals]

/-- Slot 0 of `bufV5`. -/
lemma slotV5_bufV5_zero (con : ℚ) (hcon : con ≤ 9 / 10) :
    slotV5 (globalsV5 con) bufV5 1280 720 0 = some (some (fullFrame "object" (3 / 5))) := by
  obtain ⟨-, hc, -, hP, hN, hL⟩ := globalsV5_fields con
  rw [← mkBox_fullFrame]
  apply slotV5_eval (globalsV5 con) bufV5 1280 720 0 0 (9 / 10) (3 / 5) 320 320 640 640 "object"
  · rw [hP, bufV5, bufferOf_get _ _ _ (by norm_num)]; norm_num
  · rw [hc]; exact hcon
  · rw [hP, hN]
    apply classLoop_first bufV5 _ 0 (3 / 5)
    · rw [bufV5, bufferOf_get _ _ _ (by norm_num)]; norm_num
    · norm_num
    · intro c h1 h2; omega
  · norm_num
  · rw [hL]; rfl
  · rw [hP, bufV5, bufferOf_get _ _ _ (by norm_num)]; norm_num
  · rw [hP, bufV5, bufferOf_get _ _ _ (by norm_num)]; norm_num
  · rw [hP, bufV5, bufferOf_get _ _ _ (by norm_num)]; norm_num
  · rw [hP, bufV5, bufferOf_get _ _ _ (by norm_num)]; norm_num

/-- The other slots of `bufV5`. -/
lemma slotV5_bufV5_succ (con : ℚ) (hcon : 0 < con) (i : Nat) (h1 : 1 ≤ i) (h2 : i < 25200) :
    slotV5 (globalsV5 con) bufV5 1280 720 i = some none := by
  obtain ⟨-, hc, -, hP, -, -⟩ := globalsV5_fields con
  apply slotV5_skip (globalsV5 con) bufV5 1280 720 i 0
  · rw [hP, bufV5, bufferOf_get _ _ _ (by omega), if_pos (by omega)]
  · rw [hc]; exact hcon

lemma decode_bufV5 (con : ℚ) (h0 : 0 < con) (hcon : con ≤ 9 / 10) :
    decode (globalsV5 con) bufV5 1280 720 = some [fullFrame "object" (3 / 5)] := by
  unfold decode
  rw [if_pos (globalsV5_fields con).1]
  exact decodeLoop_range_single _ 25200 _ (by norm_num) (slotV5_bufV5_zero con hcon)
    (slotV5_bufV5_succ con h0)

lemma process_output_bufV5 (con : ℚ) (h0 : 0 < con) (hcon : con ≤ 9 / 10) :
    process_output (globalsV5 con) 1 bufV5 1280 720
      = Outcome.returns [fullFrame "object" (3 / 5)] := by
  apply process_output_single _ _ _ _ _ _ (decode_bufV5 con h0 hcon) _ (le_refl _)
  rw [(globalsV5_fields con).2.2.1]; norm_num

/-- Slot 0 of `bufV8`: classes 0 and 1 tie at 0.9 and class 0 is reported. -/
lemma slotV8_bufV8_zero (con : ℚ) (hcon : con ≤ 9 / 10) :
    slotV8 (globalsV8 con) bufV8 1280 720 0 = some (some (fullFrame "person" (9 / 10))) := by
  obtain ⟨-, hc, -, -, hN, hL⟩ := globalsV8_fields con
  rw [← mkBox_fullFrame]
  apply slotV8_eval (globalsV8 con) bufV8 1280 720 0 0 (9 / 10) 320 320 640 640 "person"
  · rw [hN]
    apply classLoop_first bufV8 _ 79 (9 / 10)
    · rw [bufV8, bufferOf_get _ _ _ (by norm_num)]; norm_num
    · norm_num
    · intro c h1 h2
      refine ⟨_, bufferOf_get _ _ _ (by omega), ?_⟩
      split_ifs <;> first | omega | norm_num
  · rw [hc]; exact hcon
  · rw [hL]; rfl
  · rw [bufV8, bufferOf_get _ _ _ (by norm_num)]; norm_num
  · rw [bufV8, bufferOf_get _ _ _ (by norm_num)]; norm_num
  · rw [bufV8, bufferOf_get _ _ _ (by norm_num)]; norm_num
  · rw [bufV8, bufferOf_get _ _ _ (by norm_num)]; norm_num

/-- The other slots of `bufV8`. -/
lemma slotV8_bufV8_succ (con : ℚ) (hcon : 0 < con) (i : Nat) (h1 : 1 ≤ i) (h2 : i < 8400) :
    slotV8 (globalsV8 con) bufV8 1280 720 i = some none := by
  obtain ⟨-, hc, -, -, hN, -⟩ := globalsV8_fields con
  apply slotV8_skip (globalsV8 con) bufV8 1280 720 i 0 0
  · rw [hN]
    apply classLoop_stay
    intro c hc
    have hc80 : c < 80 := List.mem_range.1 hc
    refine ⟨0, ?_, le_refl _⟩
    rw [bufV8, bufferOf_get _ _ _ (by omega), if_neg (by omega), if_neg (by omega),
      if_neg (by omega), if_neg (by omega), if_neg (by omega), if_neg (by omega)]
  · rw [hc]; exact hcon

lemma decode_bufV8 (con : ℚ) (h0 : 0 < con) (hcon : con ≤ 9 / 10) :
    decode (globalsV8 con) bufV8 1280 720 = some [fullFrame "person" (9 / 10)] := by
  unfold decode
  rw [if_neg (by rw [(globalsV8_fields con).1]; decide)]
  exact decodeLoop_range_single _ 8400 _ (by norm_num) (slotV8_bufV8_zero con hcon)
    (slotV8_bufV8_succ con h0)

lemma process_output_bufV8 (con : ℚ) (h0 : 0 < con) (hcon : con ≤ 9 / 10) :
    process_output (globalsV8 con) 1 bufV8 1280 720
      = Outcome.returns [fullFrame "person" (9 / 10)] := by
  apply process_output_single _ _ _ _ _ _ (decode_bufV8 con h0 hcon) _ (le_refl _)
  rw [(globalsV8_fields con).2.2.1]; norm_num

/-! ## The confidence gate -/

/-- The anchor-free scan of a slot returns on a buffer that is long enough. -/
lemma classLoop_v8_isSome (g : Globals) (output : List ℚ) (index : Nat) (hi : index < 8400)
    (hlen : 8400 * (4 + g.NClasses) ≤ output.length) :
    ∃ st, classLoop output (fun col => 8400 * (col + 4) + index) (List.range g.NClasses) (0, 0)
      = some st := by
  apply classLoop_isSome
  intro c hc
  have hcN : c < g.NClasses := List.mem_range.1 hc
  have h1 : 8400 * (c + 4) + 8400 ≤ 8400 * (4 + g.NClasses) := by
    have : c + 4 + 1 ≤ 4 + g.NClasses := by omega
    calc 8400 * (c + 4) + 8400 = 8400 * (c + 4 + 1) := by ring
      _ ≤ 8400 * (4 + g.NClasses) := Nat.mul_le_mul_left _ this
  show 8400 * (c + 4) + index < output.length
  omega

/-- No anchor-free candidate when every class score is below a positive threshold. -/
lemma decode_v8_nil (g : Globals) (output : List ℚ) (W H : ℤ) (hv : g.yolover ≠ "v5")
    (hthr : 0 < g.confidenceThreshold) (hlen : 8400 * (4 + g.NClasses) ≤ output.length)
    (hall : ∀ col, col < g.NClasses → ∀ index, index < 8400 →
      ∀ v, output[8400 * (col + 4) + index]? = some v → v < g.confidenceThreshold) :
    decode g output W H = some [] := by
  unfold decode
  rw [if_neg hv]
  apply decodeLoop_all_skip
  intro index hidx
  have hi : index < 8400 := List.mem_range.1 hidx
  obtain ⟨⟨class_id, prob⟩, hc⟩ := classLoop_v8_isSome g output index hi hlen
  apply slotV8_skip g output W H index class_id prob hc
  obtain ⟨-, -, hcase⟩ := classLoop_range output _ g.NClasses _ hc
  rcases hcase with e | ⟨g1, g2, -, -⟩
  · have hp0 : prob = 0 := congrArg Prod.snd e
    rw [hp0]; exact hthr
  · exact hall class_id g1 index hi prob g2

/-- No anchor-based candidate when every objectness is below the threshold. -/
lemma decode_v5_nil (g : Globals) (output : List ℚ) (W H : ℤ) (hv : g.yolover = "v5")
    (hall : ∀ index, index < 25200 →
      ∃ v, output[g.PredSize * index + 4]? = some v ∧ v < g.confidenceThreshold) :
    decode g output W H = some [] := by
  unfold decode
  rw [if_pos hv]
  apply decodeLoop_all_skip
  intro index hidx
  obtain ⟨v, h1, h2⟩ := hall index (List.mem_range.1 hidx)
  exact slotV5_skip g output W H index v h1 h2

/-- The outer loop when every iteration appends the same box. -/
lemma decodeLoop_all_same (slot : Nat → Option (Option Box)) (b : Box) (idxs : List Nat)
    (hne : idxs ≠ []) (h : ∀ i ∈ idxs, slot i = some (some b)) :
    ∃ l, decodeLoop slot idxs [] = some l ∧ l ≠ [] ∧ ∀ x ∈ l, x = b := by
  refine ⟨_, decodeLoop_eq_some slot idxs [] (fun i hi => by rw [h i hi]; simp), ?_, ?_⟩
  · cases idxs with
    | nil => exact absurd rfl hne
    | cons i rest => simp [List.filterMap_cons, h i (List.mem_cons_self _ _)]
  · intro x hx
    simp only [List.nil_append, List.mem_filterMap] at hx
    obtain ⟨i, hi, hx⟩ := hx
    rw [h i hi] at hx
    simpa using hx.symm

/-- The sort and the NMS loop on copies of one box. -/
lemma process_output_all_same (g : Globals) (fuel : Nat) (output : List ℚ) (W H : ℤ)
    (b : Box) (l : List Box) (hd : decode g output W H = some l) (hne : l ≠ [])
    (hall : ∀ x ∈ l, x = b) (ht : g.nmsThreshold ≤ 1) (hfuel : 1 ≤ fuel) :
    process_output g fuel output W H = Outcome.returns [b] := by
  obtain ⟨n, rfl⟩ : ∃ n, fuel = n + 1 := ⟨fuel - 1, by omega⟩
  have hend : ∀ (r : List Box), nmsLoop g.nmsThreshold n [] r = some r := by
    intro r; cases n <;> rfl
  have hall2 : ∀ x ∈ sortSlice l, x = b := fun x hx => hall x ((mem_sortSlice l x).1 hx)
  unfold process_output sortThenSuppress
  rw [hd]
  simp only []
  cases hs : sortSlice l with
  | nil =>
    have := (sortSlice_perm l).length_eq
    rw [hs] at this
    exact absurd (List.length_eq_zero.1 this.symm) hne
  | cons b0 rest =>
    rw [hs] at hall2
    have hb0 : b0 = b := hall2 b0 (List.mem_cons_self _ _)
    subst hb0
    have hfil : (b0 :: rest).filter (fun box => (iou b0 box).lt g.nmsThreshold) = [] := by
      apply List.filter_eq_nil_iff.2
      intro x hx
      rw [hall2 x hx, iou_self_not_lt b0 _ ht]
      simp
    simp only [nmsLoop, hfil, hend, List.nil_append]

/-- Every slot of `bufV8neg` under the threshold 0. -/
lemma slotV8_bufV8neg (i : Nat) (hi : i < 8400) :
    slotV8 (globalsV8 0) bufV8neg 1280 720 i = some (some (fullFrame "person" 0)) := by
  obtain ⟨-, hc, -, -, hN, hL⟩ := globalsV8_fields 0
  rw [← mkBox_fullFrame]
  apply slotV8_eval (globalsV8 0) bufV8neg 1280 720 i 0 0 320 320 640 640 "person"
  · rw [hN]
    apply classLoop_stay
    intro c hc
    have hc80 : c < 80 := List.mem_range.1 hc
    refine ⟨-1, ?_, by norm_num⟩
    show bufV8neg[8400 * (c + 4) + i]? = some (-1)
    rw [bufV8neg, bufferOf_get _ _ _ (by omega), if_neg (by omega), if_neg (by omega)]
  · rw [hc]
  · rw [hL]; rfl
  · rw [bufV8neg, bufferOf_get _ _ _ (by omega), if_pos (by omega)]
  · rw [bufV8neg, bufferOf_get _ _ _ (by omega), if_pos (by omega)]
  · rw [bufV8neg, bufferOf_get _ _ _ (by omega), if_neg (by omega), if_pos (by omega)]
  · rw [bufV8neg, bufferOf_get _ _ _ (by omega), if_neg (by omega), if_pos (by omega)]

lemma process_output_bufV8neg :
    process_output (globalsV8 0) 1 bufV8neg 1280 720
      = Outcome.returns [fullFrame "person" 0] := by
  obtain ⟨l, hl, hne, hall⟩ := decodeLoop_all_same
    (slotV8 (globalsV8 0) bufV8neg 1280 720) (fullFrame "person" 0) (List.range 8400)
    (by simp) (fun i hi => slotV8_bufV8neg i (List.mem_range.1 hi))
  have hd : decode (globalsV8 0) bufV8neg 1280 720 = some l := by
    unfold decode
    rw [if_neg (by rw [(globalsV8_fields 0).1]; decide)]
    exact hl
  apply process_output_all_same _ _ _ _ _ _ _ hd hne hall _ (le_refl _)
  rw [(globalsV8_fields 0).2.2.1]; norm_num

/-! ## The length of the buffer -/

/-- An anchor-free iteration reads only below `8400 * (4 + NClasses)`. -/
lemma slotV8_congr (g : Globals) (o1 o2 : List ℚ) (W H : ℤ) (index : Nat)
    (hi : index < 8400) (h : ∀ i, i < 8400 * (4 + g.NClasses) → o1[i]? = o2[i]?) :
    slotV8 g o1 W H index = slotV8 g o2 W H index := by
  have h4N : 8400 * 4 ≤ 8400 * (4 + g.NClasses) := Nat.mul_le_mul_left _ (by omega)
  have hc : classLoop o1 (fun col => 8400 * (col + 4) + index) (List.range g.NClasses) (0, 0)
      = classLoop o2 (fun col => 8400 * (col + 4) + index) (List.range g.NClasses) (0, 0) := by
    apply classLoop_congr
    intro c hc
    have hcN : c < g.NClasses := List.mem_range.1 hc
    have : 8400 * (c + 4 + 1) ≤ 8400 * (4 + g.NClasses) := Nat.mul_le_mul_left _ (by omega)
    exact h _ (by omega)
  unfold slotV8
  rw [hc, h index (by omega), h (8400 + index) (by omega), h (2 * 8400 + index) (by omega),
    h (3 * 8400 + index) (by omega)]

/-- An anchor-based iteration reads only below `25200 * PredSize`. -/
lemma slotV5_congr (g : Globals) (o1 o2 : List ℚ) (W H : ℤ) (index : Nat)
    (hi : index < 25200) (hP : g.PredSize = g.NClasses + 5)
    (h : ∀ i, i < 25200 * g.PredSize → o1[i]? = o2[i]?) :
    slotV5 g o1 W H index = slotV5 g o2 W H index := by
  have hslot : g.PredSize * index + g.PredSize ≤ 25200 * g.PredSize := by
    have : index + 1 ≤ 25200 := hi
    calc g.PredSize * index + g.PredSize = (index + 1) * g.PredSize := by ring
      _ ≤ 25200 * g.PredSize := Nat.mul_le_mul_right _ this
  have hc : classLoop o1 (fun col => g.PredSize * index + 5 + col) (List.range g.NClasses)
      (0, 0)
      = classLoop o2 (fun col => g.PredSize * index + 5 + col) (List.range g.NClasses)
        (0, 0) := by
    apply classLoop_congr
    intro c hc
    have hcN : c < g.NClasses := List.mem_range.1 hc
    exact h _ (by omega)
  unfold slotV5
  rw [hc, h (g.PredSize * index + 4) (by omega), h (g.PredSize * index) (by omega),
    h (g.PredSize * index + 1) (by omega), h (g.PredSize * index + 2) (by omega),
    h (g.PredSize * index + 3) (by omega)]

/-- What `process_output` does depends on the candidate list only. -/
lemma process_output_congr (g : Globals) (fuel : Nat) (o1 o2 : List ℚ) (W H : ℤ)
    (h : decode g o1 W H = decode g o2 W H) :
    process_output g fuel o1 W H = process_output g fuel o2 W H := by
  unfold process_output
  rw [h]

/-- An anchor-free buffer that is too short makes the last iteration panic. -/
lemma decode_v8_short (g : Globals) (output : List ℚ) (W H : ℤ) (hv : g.yolover ≠ "v5")
    (hN : 0 < g.NClasses) (hlen : output.length < 8400 * (4 + g.NClasses)) :
    decode g output W H = none := by
  unfold decode
  rw [if_neg hv]
  apply decodeLoop_none _ _ _ 8399 (List.mem_range.2 (by norm_num))
  unfold slotV8
  have hidx : 8400 * (g.NClasses - 1 + 4) + 8399 + 1 = 8400 * (4 + g.NClasses) := by
    have : g.NClasses - 1 + 4 + 1 = 4 + g.NClasses := by omega
    calc 8400 * (g.NClasses - 1 + 4) + 8399 + 1 = 8400 * (g.NClasses - 1 + 4 + 1) := by ring
      _ = 8400 * (4 + g.NClasses) := by rw [this]
  rw [classLoop_none output (fun col => 8400 * (col + 4) + 8399) (List.range g.NClasses)
    (0, 0) (g.NClasses - 1) (List.mem_range.2 (by omega)) (by
      show output.length ≤ 8400 * (g.NClasses - 1 + 4) + 8399
      omega)]

/-! ## The NMS stage -/

lemma not_lt_iff (v : F64) (t : ℚ) : v.lt t = false ↔ (v.ge t = true ∨ v = F64.nan) := by
  cases v <;> simp [F64.lt, F64.ge]

/-- C1: the list returned by the NMS loop has, at any two distinct positions, boxes
whose iou is strictly below `nmsThreshold` (so not `>=` it), for every candidate list
and threshold; the same holds of what `process_output` returns; and for
`nmsThreshold <= 1` the loop does return. -/
theorem nms_result_pairwise_below_threshold (t : ℚ) (boxes : List Box) :
    (∀ (fuel : Nat) (res : List Box), nmsLoop t fuel boxes [] = some res →
      ∀ (i j : Nat) (hi : i < res.length) (hj : j < res.length), i ≠ j →
        (iou res[i] res[j]).lt t = true ∧ (iou res[i] res[j]).ge t = false) ∧
    (∀ (g : Globals) (fuel : Nat) (output : List ℚ) (W H : ℤ) (res : List Box),
      g.nmsThreshold = t → process_output g fuel output W H = Outcome.returns res →
      ∀ (i j : Nat) (hi : i < res.length) (hj : j < res.length), i ≠ j →
        (iou res[i] res[j]).lt t = true) ∧
    (t ≤ 1 → ∃ res, nmsLoop t boxes.length boxes [] = some res) := by
  refine ⟨?_, ?_, ?_⟩
  · intro fuel res h i j hi hj hij
    have hlt := nmsLoop_pairwise t fuel boxes res h i j hi hj hij
    exact ⟨hlt, lt_true_ge_false _ _ hlt⟩
  · intro g fuel output W H res hg h i j hi hj hij
    obtain ⟨cands, -, hn, -⟩ := process_output_returns g fuel output W H res h
    rw [hg] at hn
    exact nmsLoop_pairwise t fuel _ res hn i j hi hj hij
  · intro ht
    exact nmsLoop_terminates t ht _ boxes [] (le_refl _)

/-- C1 at the candidates `unitBox, sideBox` and threshold 0.5: both are returned and
their iou, `-1/3`, is below the threshold. -/
theorem nms_result_pairwise_below_threshold_witness :
    nmsLoop (1 / 2) 2 [unitBox, sideBox] [] = some [unitBox, sideBox] ∧
      (iou unitBox sideBox).lt (1 / 2) = true ∧ (iou unitBox sideBox).ge (1 / 2) = false ∧
      ∃ res, nmsLoop (1 / 2) 2 [unitBox, sideBox] [] = some res := by
  have hrun : nmsLoop (1 / 2) 2 [unitBox, sideBox] [] = some [unitBox, sideBox] := by
    norm_num [nmsLoop, iou, fdiv, union, intersection, unitBox, sideBox, F64.lt]
  have h := nms_result_pairwise_below_threshold (1 / 2) [unitBox, sideBox]
  have h01 := h.1 2 [unitBox, sideBox] hrun 0 1 (by simp) (by simp) (by decide)
  exact ⟨hrun, h01.1, h01.2, h.2.2 (by norm_num)⟩

/-- C8: two candidates of distinct confidences whose iou is `>= nmsThreshold`, with
`nmsThreshold <= 1`: sorting and suppressing returns exactly one box, the one of lower
confidence.  It holds for boxes of any area, those of positive area among them. -/
theorem sortThenSuppress_pair_keeps_lower (t : ℚ) (a b : Box) (fuel : Nat)
    (ht : t ≤ 1) (hne : a.prob ≠ b.prob)
    (hiou : (iou a b).ge t = true) (hfuel : 1 ≤ fuel) :
    sortThenSuppress t fuel [a, b] = some [if a.prob < b.prob then a else b] := by
  obtain ⟨n, rfl⟩ : ∃ n, fuel = n + 1 := ⟨fuel - 1, by omega⟩
  have hab : (iou a b).lt t = false := ge_true_lt_false _ _ hiou
  have hba : (iou b a).lt t = false := by rw [iou_comm]; exact hab
  have haa := iou_self_not_lt a t ht
  have hbb := iou_self_not_lt b t ht
  have hend : ∀ (r : List Box), nmsLoop t n [] r = some r := by
    intro r; cases n <;> rfl
  rcases lt_or_gt_of_ne hne with hlt | hgt
  · have hs : sortSlice [a, b] = [a, b] := by
      simp [sortSlice, List.insertionSort, List.orderedInsert, le_of_lt hlt]
    simp [sortThenSuppress, hs, nmsLoop, haa, hab, hend, hlt]
  · have hs : sortSlice [a, b] = [b, a] := by
      simp [sortSlice, List.insertionSort, List.orderedInsert, not_le.2 hgt]
    simp [sortThenSuppress, hs, nmsLoop, hbb, hba, hend, not_lt.2 (le_of_lt hgt)]

/-- C8 at confidences 0.9 and 0.95, IoU 0.8 and threshold 0.5: only the 0.9 box is
returned, in either order of the candidates. -/
theorem sortThenSuppress_pair_keeps_lower_witness :
    0 < area boxHi ∧ 0 < area boxLo ∧ (iou boxHi boxLo).ge (1 / 2) = true ∧
      sortThenSuppress (1 / 2) 2 [boxHi, boxLo] = some [boxLo] := by
  have hiou : (iou boxHi boxLo).ge (1 / 2) = true := by
    norm_num [iou, fdiv, union, intersection, boxLo, boxHi, F64.ge]
  have h := sortThenSuppress_pair_keeps_lower (1 / 2) boxHi boxLo 2 (by norm_num)
    (by norm_num [boxLo, boxHi]) hiou (by norm_num)
  have hp : ¬ (boxHi.prob < boxLo.prob) := by norm_num [boxLo, boxHi]
  rw [if_neg hp] at h
  exact ⟨by norm_num [area, boxHi], by norm_num [area, boxLo], hiou, h⟩

/-- C9, as the code has it: for every candidate list and threshold, every candidate absent
from a returned NMS result failed the test `iou(k, c) < nmsThreshold` against some box
`k` of the result, that is `iou(k, c) >= nmsThreshold` or `iou(k, c)` is the `NaN` of
`0/0`; so of two candidates at least one is in the result unless both were filtered
out against kept boxes; and for `nmsThreshold <= 1` the loop returns such a result. -/
theorem nms_absent_failed_test (t : ℚ) (boxes : List Box) :
    (∀ (fuel : Nat) (res : List Box), nmsLoop t fuel boxes [] = some res →
      (∀ c ∈ boxes, c ∉ res →
        ∃ k ∈ res, (iou k c).lt t = false ∧ ((iou k c).ge t = true ∨ iou k c = F64.nan)) ∧
      (∀ a ∈ boxes, ∀ b ∈ boxes, a ∈ res ∨ b ∈ res ∨
        ((∃ k ∈ res, (iou k a).lt t = false) ∧ (∃ k ∈ res, (iou k b).lt t = false)))) ∧
    (t ≤ 1 → ∃ res, nmsLoop t boxes.length boxes [] = some res) := by
  refine ⟨?_, fun ht => nmsLoop_terminates t ht _ boxes [] (le_refl _)⟩
  intro fuel res h
  obtain ⟨kept, hres, -, -, hsupp⟩ := nmsLoop_spec t fuel boxes [] res h
  simp only [List.nil_append] at hres
  subst hres
  refine ⟨?_, ?_⟩
  · intro c hc hcr
    obtain ⟨k, hk, hkc⟩ := hsupp c hc hcr
    exact ⟨k, hk, hkc, (not_lt_iff _ _).1 hkc⟩
  · intro a ha b hb
    by_cases har : a ∈ res
    · exact Or.inl har
    · by_cases hbr : b ∈ res
      · exact Or.inr (Or.inl hbr)
      · exact Or.inr (Or.inr ⟨hsupp a ha har, hsupp b hb hbr⟩)

/-- C9 at the candidates `unitBox, farBox` and threshold 0.5: `farBox` is absent from
the result `[unitBox]`, and its iou with `unitBox`, which the code computes as 1, is
`>=` the threshold. -/
theorem nms_absent_failed_test_witness :
    nmsLoop (1 / 2) 2 [unitBox, farBox] [] = some [unitBox] ∧
      (∃ k ∈ [unitBox], (iou k farBox).lt (1 / 2) = false ∧
        ((iou k farBox).ge (1 / 2) = true ∨ iou k farBox = F64.nan)) ∧
      ∃ res, nmsLoop (1 / 2) 2 [unitBox, farBox] [] = some res := by
  have hrun : nmsLoop (1 / 2) 2 [unitBox, farBox] [] = some [unitBox] := by
    norm_num [nmsLoop, iou, fdiv, union, intersection, unitBox, farBox, F64.lt]
  have h := nms_absent_failed_test (1 / 2) [unitBox, farBox]
  have hfar : farBox ∉ [unitBox] := by decide
  exact ⟨hrun, (h.1 2 [unitBox] hrun).1 farBox (by simp) hfar, h.2 (by norm_num)⟩

/-- C9 as stated fails on two zero-area candidates: `pointB` is absent from the result
`[pointA]`, and its iou with the one kept box is `0/0`, which is not `>= 0.5`. -/
theorem nms_absent_not_ge_counterexample :
    nmsLoop (1 / 2) 2 [pointA, pointB] [] = some [pointA] ∧
      pointB ∈ [pointA, pointB] ∧ pointB ∉ [pointA] ∧
      ¬ ∃ k ∈ [pointA], (iou k pointB).ge (1 / 2) = true := by
  refine ⟨?_, by simp, by decide, ?_⟩
  · norm_num [nmsLoop, iou, fdiv, union, intersection, pointA, pointB, F64.lt]
  · norm_num [iou, fdiv, union, intersection, pointA, pointB, F64.ge]

/-- C10, as the code has it: for `nmsThreshold <= 1` the NMS loop terminates on every
finite candidate list (fuel equal to the length of the list is enough), because the
selected box does not pass its own test and the filtered list is strictly shorter. -/
theorem nmsLoop_terminates_of_threshold_le_one (t : ℚ) (ht : t ≤ 1) (boxes result : List Box) :
    (∃ res, nmsLoop t boxes.length boxes result = some res) ∧
    (∀ (b0 : Box) (rest : List Box), (iou b0 b0).lt t = false ∧
      ((b0 :: rest).filter (fun box => (iou b0 box).lt t)).length < (b0 :: rest).length) :=
  ⟨nmsLoop_terminates t ht _ boxes result (le_refl _),
    fun b0 rest => ⟨iou_self_not_lt b0 t ht, filter_length_lt t ht b0 rest⟩⟩

/-- C10 at threshold 0.5 on the candidates `boxLo, boxHi`. -/
theorem nmsLoop_terminates_of_threshold_le_one_witness :
    (∃ res, nmsLoop (1 / 2) 2 [boxLo, boxHi] [] = some res) ∧
      (iou boxLo boxLo).lt (1 / 2) = false :=
  ⟨(nmsLoop_terminates_of_threshold_le_one (1 / 2) (by norm_num) [boxLo, boxHi] []).1,
    ((nmsLoop_terminates_of_threshold_le_one (1 / 2) (by norm_num) [boxLo, boxHi] []).2
      boxLo [boxHi]).1⟩

/-- C10 as stated fails for the threshold 2: the one candidate `unitBox` passes its own
test (`iou = 1 < 2`), the filtered list is not shorter, and no amount of fuel lets the
loop return. -/
theorem nmsLoop_threshold_two_counterexample :
    (iou unitBox unitBox).lt 2 = true ∧
      ([unitBox].filter (fun box => (iou unitBox box).lt 2)).length = [unitBox].length ∧
      ¬ ∃ (fuel : Nat) (res : List Box), nmsLoop 2 fuel [unitBox] [] = some res := by
  have hself : (iou unitBox unitBox).lt 2 = true := by
    norm_num [iou, fdiv, union, intersection, unitBox, F64.lt]
  refine ⟨hself, by simp [hself], ?_⟩
  rintro ⟨fuel, res, h⟩
  rw [nmsLoop_diverges 2 unitBox hself fuel [] []] at h
  exact Option.noConfusion h

/-! ## `intersection` on disjoint rectangles -/

/-- C2 at two rectangles disjoint in both axes, and at two disjoint in one axis: the
code's `intersection` is `1`, resp. `-1`, not `0`, and `iou` is `1`, resp. `-1/3`, not
`0.0`; with the threshold 0.5 the box disjoint in both axes is suppressed. -/
theorem intersection_disjoint_not_zero :
    unitBox.x2 < farBox.x1 ∧ unitBox.y2 < farBox.y1 ∧
      intersection unitBox farBox = 1 ∧ iou unitBox farBox = F64.fin 1 ∧
      unitBox.x2 < sideBox.x1 ∧
      intersection unitBox sideBox = -1 ∧ iou unitBox sideBox = F64.fin (-1 / 3) ∧
      nmsLoop (1 / 2) 2 [unitBox, farBox] [] = some [unitBox] := by
  refine ⟨by norm_num [unitBox, farBox], by norm_num [unitBox, farBox], ?_, ?_,
    by norm_num [unitBox, sideBox], ?_, ?_, ?_⟩
  · norm_num [intersection, unitBox, farBox]
  · norm_num [iou, fdiv, union, intersection, unitBox, farBox]
  · norm_num [intersection, unitBox, sideBox]
  · norm_num [iou, fdiv, union, intersection, unitBox, sideBox]
  · norm_num [nmsLoop, iou, fdiv, union, intersection, unitBox, farBox, F64.lt]

/-! ## Decoding one slot -/

/-- C6: a slot that becomes a candidate, of centre-form values `(xc, yc, w, h)` read at
the slot's places in the buffer (channel-major for the anchor-free family, interleaved
for the anchor-based one), gives the box `x1 = (xc - w/2) * img_width / 640`,
`y1 = (yc - h/2) * img_height / 640`, `x2 = (xc + w/2) * img_width / 640`,
`y2 = (yc + h/2) * img_height / 640`. -/
theorem candidate_box_corners (g : Globals) (output : List ℚ) (W H : ℤ) (index : Nat)
    (b : Box) :
    (slotV8 g output W H index = some (some b) →
      ∃ xc yc w h, output[index]? = some xc ∧ output[8400 + index]? = some yc ∧
        output[2 * 8400 + index]? = some w ∧ output[3 * 8400 + index]? = some h ∧
        b.x1 = (xc - w / 2) * W / 640 ∧ b.y1 = (yc - h / 2) * H / 640 ∧
        b.x2 = (xc + w / 2) * W / 640 ∧ b.y2 = (yc + h / 2) * H / 640) ∧
    (slotV5 g output W H index = some (some b) →
      ∃ xc yc w h, output[g.PredSize * index]? = some xc ∧
        output[g.PredSize * index + 1]? = some yc ∧
        output[g.PredSize * index + 2]? = some w ∧
        output[g.PredSize * index + 3]? = some h ∧
        b.x1 = (xc - w / 2) * W / 640 ∧ b.y1 = (yc - h / 2) * H / 640 ∧
        b.x2 = (xc + w / 2) * W / 640 ∧ b.y2 = (yc + h / 2) * H / 640) := by
  constructor
  · intro hs
    obtain ⟨_, _, _, xc, yc, w, h, -, -, -, h1, h2, h3, h4, rfl⟩ :=
      slotV8_some g output W H index b hs
    refine ⟨xc, yc, w, h, h1, h2, h3, h4, ?_, ?_, ?_, ?_⟩ <;> simp only [mkBox] <;> ring
  · intro hs
    obtain ⟨_, _, _, _, xc, yc, w, h, -, -, -, -, -, h1, h2, h3, h4, rfl⟩ :=
      slotV5_some g output W H index b hs
    refine ⟨xc, yc, w, h, h1, h2, h3, h4, ?_, ?_, ?_, ?_⟩ <;> simp only [mkBox] <;> ring

/-- C6 at `xc = 320, yc = 320, w = 640, h = 640` on a 1280 x 720 image, for both
families: the corners are `(0, 0, 1280, 720)`, as the theorem's formulas give them. -/
theorem candidate_box_corners_witness :
    (slotV8 (globalsV8 (3 / 5)) bufV8 1280 720 0 = some (some (fullFrame "person" (9 / 10))) ∧
      slotV5 (globalsV5 (3 / 5)) bufV5 1280 720 0 = some (some (fullFrame "object" (3 / 5)))) ∧
    ((fullFrame "person" (9 / 10)).x1 = 0 ∧ (fullFrame "person" (9 / 10)).y1 = 0 ∧
      (fullFrame "person" (9 / 10)).x2 = 1280 ∧ (fullFrame "person" (9 / 10)).y2 = 720) ∧
    (∃ xc yc w h, bufV8[0]? = some xc ∧ bufV8[8400 + 0]? = some yc ∧
        bufV8[2 * 8400 + 0]? = some w ∧ bufV8[3 * 8400 + 0]? = some h ∧
        (fullFrame "person" (9 / 10)).x1 = (xc - w / 2) * (1280 : ℤ) / 640 ∧
        (fullFrame "person" (9 / 10)).y1 = (yc - h / 2) * (720 : ℤ) / 640 ∧
        (fullFrame "person" (9 / 10)).x2 = (xc + w / 2) * (1280 : ℤ) / 640 ∧
        (fullFrame "person" (9 / 10)).y2 = (yc + h / 2) * (720 : ℤ) / 640) ∧
    (∃ xc yc w h, bufV5[(globalsV5 (3 / 5)).PredSize * 0]? = some xc ∧
        bufV5[(globalsV5 (3 / 5)).PredSize * 0 + 1]? = some yc ∧
        bufV5[(globalsV5 (3 / 5)).PredSize * 0 + 2]? = some w ∧
        bufV5[(globalsV5 (3 / 5)).PredSize * 0 + 3]? = some h ∧
        (fullFrame "object" (3 / 5)).x1 = (xc - w / 2) * (1280 : ℤ) / 640 ∧
        (fullFrame "object" (3 / 5)).y1 = (yc - h / 2) * (720 : ℤ) / 640 ∧
        (fullFrame "object" (3 / 5)).x2 = (xc + w / 2) * (1280 : ℤ) / 640 ∧
        (fullFrame "object" (3 / 5)).y2 = (yc + h / 2) * (720 : ℤ) / 640) :=
  ⟨⟨slotV8_bufV8_zero (3 / 5) (by norm_num), slotV5_bufV5_zero (3 / 5) (by norm_num)⟩,
    ⟨rfl, rfl, rfl, rfl⟩,
    (candidate_box_corners (globalsV8 (3 / 5)) bufV8 1280 720 0 _).1
      (slotV8_bufV8_zero (3 / 5) (by norm_num)),
    (candidate_box_corners (globalsV5 (3 / 5)) bufV5 1280 720 0 _).2
      (slotV5_bufV5_zero (3 / 5) (by norm_num))⟩

/-- C7: for a slot that becomes a candidate (anchor-free with `confidenceThreshold > 0`,
or anchor-based), the reported confidence is the maximum of the slot's class scores,
it is the score of a class `class_id < NClasses`, every class before `class_id` scores
strictly less, and the label is `yolo_classes[class_id]`. -/
theorem candidate_confidence_is_first_max (g : Globals) (output : List ℚ) (W H : ℤ)
    (index : Nat) (b : Box) :
    (0 < g.confidenceThreshold → slotV8 g output W H index = some (some b) →
      ∃ class_id, class_id < g.NClasses ∧ g.yolo_classes[class_id]? = some b.label ∧
        output[8400 * (class_id + 4) + index]? = some b.prob ∧
        (∀ c, c < g.NClasses → ∃ v, output[8400 * (c + 4) + index]? = some v ∧ v ≤ b.prob) ∧
        (∀ c, c < class_id → ∃ v, output[8400 * (c + 4) + index]? = some v ∧ v < b.prob)) ∧
    (slotV5 g output W H index = some (some b) →
      ∃ class_id, class_id < g.NClasses ∧ g.yolo_classes[class_id]? = some b.label ∧
        output[g.PredSize * index + 5 + class_id]? = some b.prob ∧
        (∀ c, c < g.NClasses → ∃ v, output[g.PredSize * index + 5 + c]? = some v ∧ v ≤ b.prob) ∧
        (∀ c, c < class_id → ∃ v, output[g.PredSize * index + 5 + c]? = some v ∧ v < b.prob)) := by
  constructor
  · intro hthr hs
    obtain ⟨class_id, prob, label, xc, yc, w, h, hc, hp, hl, -, -, -, -, rfl⟩ :=
      slotV8_some g output W H index b hs
    obtain ⟨-, hall, hcase⟩ := classLoop_range output _ g.NClasses _ hc
    rcases hcase with e | ⟨g1, g2, -, g4⟩
    · have hp0 : prob = 0 := congrArg Prod.snd e
      rw [hp0] at hp
      exact absurd hthr (not_lt.2 hp)
    · exact ⟨class_id, g1, hl, g2, hall, g4⟩
  · intro hs
    obtain ⟨obj, class_id, prob, label, xc, yc, w, h, -, -, hc, hp, hl, -, -, -, -, rfl⟩ :=
      slotV5_some g output W H index b hs
    obtain ⟨-, hall, hcase⟩ := classLoop_range output _ g.NClasses _ hc
    rcases hcase with e | ⟨g1, g2, -, g4⟩
    · have hp0 : prob = 0 := congrArg Prod.snd e
      rw [hp0] at hp
      norm_num at hp
    · exact ⟨class_id, g1, hl, g2, hall, g4⟩

/-- C7 on slot 0 of `bufV8`, whose classes 0 and 1 tie at 0.9: the reported label is
that of a class with no strictly earlier class reaching 0.9; and on slot 0 of `bufV5`. -/
theorem candidate_confidence_is_first_max_witness :
    (0 : ℚ) < (globalsV8 (3 / 5)).confidenceThreshold ∧
    (∃ class_id, class_id < (globalsV8 (3 / 5)).NClasses ∧
        (globalsV8 (3 / 5)).yolo_classes[class_id]? = some (fullFrame "person" (9 / 10)).label ∧
        bufV8[8400 * (class_id + 4) + 0]? = some (fullFrame "person" (9 / 10)).prob ∧
        (∀ c, c < (globalsV8 (3 / 5)).NClasses →
          ∃ v, bufV8[8400 * (c + 4) + 0]? = some v ∧ v ≤ (fullFrame "person" (9 / 10)).prob) ∧
        (∀ c, c < class_id →
          ∃ v, bufV8[8400 * (c + 4) + 0]? = some v ∧ v < (fullFrame "person" (9 / 10)).prob)) ∧
    (∃ class_id, class_id < (globalsV5 (3 / 5)).NClasses ∧
        (globalsV5 (3 / 5)).yolo_classes[class_id]? = some (fullFrame "object" (3 / 5)).label ∧
        bufV5[(globalsV5 (3 / 5)).PredSize * 0 + 5 + class_id]?
          = some (fullFrame "object" (3 / 5)).prob ∧
        (∀ c, c < (globalsV5 (3 / 5)).NClasses →
          ∃ v, bufV5[(globalsV5 (3 / 5)).PredSize * 0 + 5 + c]? = some v ∧
            v ≤ (fullFrame "object" (3 / 5)).prob) ∧
        (∀ c, c < class_id →
          ∃ v, bufV5[(globalsV5 (3 / 5)).PredSize * 0 + 5 + c]? = some v ∧
            v < (fullFrame "object" (3 / 5)).prob)) :=
  ⟨by rw [(globalsV8_fields (3 / 5)).2.1]; norm_num,
    (candidate_confidence_is_first_max (globalsV8 (3 / 5)) bufV8 1280 720 0 _).1
      (by rw [(globalsV8_fields (3 / 5)).2.1]; norm_num)
      (slotV8_bufV8_zero (3 / 5) (by norm_num)),
    (candidate_confidence_is_first_max (globalsV5 (3 / 5)) bufV5 1280 720 0 _).2
      (slotV5_bufV5_zero (3 / 5) (by norm_num))⟩

/-! ## The confidence filter -/

/-- C3, as the code has it.  Anchor-free family: a slot of a buffer that is long enough,
with labels for all classes, becomes a candidate if and only if the confidence found by
its class scan is `>= confidenceThreshold`, the candidate reports that confidence, and
every box `process_output` returns has confidence `>= confidenceThreshold`.
Anchor-based family (`yolover == "v5"`): every box `process_output` returns comes from a
slot whose objectness (element 4) is `>= confidenceThreshold`. -/
theorem confidence_gate (g : Globals) (output : List ℚ) (W H : ℤ) :
    (∀ index, index < 8400 → 8400 * (4 + g.NClasses) ≤ output.length → 0 < g.NClasses →
      g.NClasses ≤ g.yolo_classes.length →
      ∃ class_id prob,
        classLoop output (fun col => 8400 * (col + 4) + index) (List.range g.NClasses) (0, 0)
          = some (class_id, prob) ∧
        ((∃ b, slotV8 g output W H index = some (some b)) ↔ g.confidenceThreshold ≤ prob) ∧
        ∀ b, slotV8 g output W H index = some (some b) → b.prob = prob) ∧
    (g.yolover ≠ "v5" → ∀ (fuel : Nat) (res : List Box),
      process_output g fuel output W H = Outcome.returns res →
      ∀ b ∈ res, g.confidenceThreshold ≤ b.prob) ∧
    (g.yolover = "v5" → ∀ (fuel : Nat) (res : List Box),
      process_output g fuel output W H = Outcome.returns res →
      ∀ b ∈ res, ∃ index obj, index < 25200 ∧ slotV5 g output W H index = some (some b) ∧
        output[g.PredSize * index + 4]? = some obj ∧ g.confidenceThreshold ≤ obj) := by
  refine ⟨?_, ?_, ?_⟩
  · intro index hi hlen hN hL
    obtain ⟨⟨class_id, prob⟩, hc⟩ := classLoop_v8_isSome g output index hi hlen
    refine ⟨class_id, prob, hc, ⟨?_, ?_⟩, ?_⟩
    · rintro ⟨b, hb⟩
      obtain ⟨c', p', _, _, _, _, _, hc', hp', -, -, -, -, -, -⟩ :=
        slotV8_some g output W H index b hb
      rw [hc] at hc'
      have : prob = p' := congrArg Prod.snd (Option.some.inj hc')
      rw [this]; exact hp'
    · intro hp
      have hcid : class_id < g.NClasses := by
        obtain ⟨-, -, hcase⟩ := classLoop_range output _ g.NClasses _ hc
        rcases hcase with e | ⟨g1, -, -, -⟩
        · have : class_id = 0 := congrArg Prod.fst e
          omega
        · exact g1
      have h4N : 8400 * 4 ≤ 8400 * (4 + g.NClasses) := Nat.mul_le_mul_left _ (by omega)
      have q0 : class_id < g.yolo_classes.length := by omega
      have q1 : index < output.length := by omega
      have q2 : 8400 + index < output.length := by omega
      have q3 : 2 * 8400 + index < output.length := by omega
      have q4 : 3 * 8400 + index < output.length := by omega
      have hl := List.getElem?_eq_getElem q0
      have h1 := List.getElem?_eq_getElem q1
      have h2 := List.getElem?_eq_getElem q2
      have h3 := List.getElem?_eq_getElem q3
      have h4 := List.getElem?_eq_getElem q4
      exact ⟨_, slotV8_eval g output W H index class_id prob _ _ _ _ _ hc hp hl h1 h2 h3 h4⟩
    · intro b hb
      obtain ⟨c', p', _, _, _, _, _, hc', -, -, -, -, -, -, rfl⟩ :=
        slotV8_some g output W H index b hb
      rw [hc] at hc'
      exact (congrArg Prod.snd (Option.some.inj hc')).symm
  · intro hv fuel res h b hb
    obtain ⟨boxes, hd, -, hsub⟩ := process_output_returns g fuel output W H res h
    unfold decode at hd
    rw [if_neg hv] at hd
    obtain ⟨index, -, hs⟩ := (decodeLoop_mem _ _ _ hd b).1 (hsub b hb)
    obtain ⟨_, _, _, _, _, _, _, -, hp, -, -, -, -, -, rfl⟩ :=
      slotV8_some g output W H index b hs
    exact hp
  · intro hv fuel res h b hb
    obtain ⟨boxes, hd, -, hsub⟩ := process_output_returns g fuel output W H res h
    unfold decode at hd
    rw [if_pos hv] at hd
    obtain ⟨index, hidx, hs⟩ := (decodeLoop_mem _ _ _ hd b).1 (hsub b hb)
    obtain ⟨obj, _, _, _, _, _, _, _, ho, hobj, -, -, -, -, -, -, -, -⟩ :=
      slotV5_some g output W H index b hs
    exact ⟨index, obj, List.mem_range.1 hidx, hs, ho, hobj⟩

/-- C3 on `bufV8` and on `bufV5` with the threshold 0.6: the one box returned has
confidence 0.9 (anchor-free), resp. comes from a slot of objectness `>= 0.6`. -/
theorem confidence_gate_witness :
    (∃ class_id prob,
        classLoop bufV8 (fun col => 8400 * (col + 4) + 0)
          (List.range (globalsV8 (3 / 5)).NClasses) (0, 0) = some (class_id, prob) ∧
        ((∃ b, slotV8 (globalsV8 (3 / 5)) bufV8 1280 720 0 = some (some b)) ↔
          (globalsV8 (3 / 5)).confidenceThreshold ≤ prob) ∧
        ∀ b, slotV8 (globalsV8 (3 / 5)) bufV8 1280 720 0 = some (some b) → b.prob = prob) ∧
    (∀ b ∈ [fullFrame "person" (9 / 10)], (globalsV8 (3 / 5)).confidenceThreshold ≤ b.prob) ∧
    (∀ b ∈ [fullFrame "object" (3 / 5)], ∃ index obj, index < 25200 ∧
        slotV5 (globalsV5 (3 / 5)) bufV5 1280 720 index = some (some b) ∧
        bufV5[(globalsV5 (3 / 5)).PredSize * index + 4]? = some obj ∧
        (globalsV5 (3 / 5)).confidenceThreshold ≤ obj) :=
  ⟨(confidence_gate (globalsV8 (3 / 5)) bufV8 1280 720).1 0 (by norm_num)
      (by rw [(globalsV8_fields (3 / 5)).2.2.2.2.1, bufV8, bufferOf_length])
      (by rw [(globalsV8_fields (3 / 5)).2.2.2.2.1]; norm_num)
      (by rw [(globalsV8_fields (3 / 5)).2.2.2.2.1, (globalsV8_fields (3 / 5)).2.2.2.2.2]
          simp [labels80]),
    (confidence_gate (globalsV8 (3 / 5)) bufV8 1280 720).2.1
      (by rw [(globalsV8_fields (3 / 5)).1]; decide) 1 _
      (process_output_bufV8 (3 / 5) (by norm_num) (by norm_num)),
    (confidence_gate (globalsV5 (3 / 5)) bufV5 1280 720).2.2
      (globalsV5_fields (3 / 5)).1 1 _
      (process_output_bufV5 (3 / 5) (by norm_num) (by norm_num))⟩

/-- C3 as stated fails for the anchor-based family: with `-con 0.8`, slot 0 of `bufV5`
(objectness 0.9, class score 0.6) becomes a candidate and `process_output` returns it,
a box of confidence 0.6, below the threshold. -/
theorem confidence_gate_v5_counterexample :
    (globalsV5 (4 / 5)).yolover = "v5" ∧
      process_output (globalsV5 (4 / 5)) 1 bufV5 1280 720
        = Outcome.returns [fullFrame "object" (3 / 5)] ∧
      (fullFrame "object" (3 / 5)).prob < (globalsV5 (4 / 5)).confidenceThreshold := by
  refine ⟨(globalsV5_fields (4 / 5)).1,
    process_output_bufV5 (4 / 5) (by norm_num) (by norm_num), ?_⟩
  rw [(globalsV5_fields (4 / 5)).2.1]
  norm_num [fullFrame]

/-- C4, as the code has it: on a buffer long enough for the family (a well-sized one
among them), `process_output` returns the empty list when, for the anchor-based family
(`PredSize = NClasses + 5`), every objectness is below `confidenceThreshold`, and, for
the anchor-free family, `confidenceThreshold > 0` and every class score is below it. -/
theorem no_candidate_below_threshold (g : Globals) (fuel : Nat) (output : List ℚ)
    (W H : ℤ) :
    (g.yolover = "v5" → g.PredSize = g.NClasses + 5 → 25200 * g.PredSize ≤ output.length →
      (∀ index, index < 25200 →
        ∀ v, output[g.PredSize * index + 4]? = some v → v < g.confidenceThreshold) →
      process_output g fuel output W H = Outcome.returns []) ∧
    (g.yolover ≠ "v5" → 0 < g.confidenceThreshold →
      8400 * (4 + g.NClasses) ≤ output.length →
      (∀ col, col < g.NClasses → ∀ index, index < 8400 →
        ∀ v, output[8400 * (col + 4) + index]? = some v → v < g.confidenceThreshold) →
      process_output g fuel output W H = Outcome.returns []) := by
  constructor
  · intro hv hP hlen hall
    apply process_output_of_decode_nil
    apply decode_v5_nil g output W H hv
    intro index hi
    have h1 : g.PredSize * index + g.PredSize ≤ 25200 * g.PredSize := by
      have : index + 1 ≤ 25200 := hi
      calc g.PredSize * index + g.PredSize = (index + 1) * g.PredSize := by ring
        _ ≤ 25200 * g.PredSize := Nat.mul_le_mul_right _ this
    have hin : g.PredSize * index + 4 < output.length := by omega
    exact ⟨_, List.getElem?_eq_getElem hin, hall index hi _ (List.getElem?_eq_getElem hin)⟩
  · intro hv hthr hlen hall
    exact process_output_of_decode_nil g fuel output W H
      (decode_v8_nil g output W H hv hthr hlen hall)

/-- C4 on the well-sized all-zero buffers of both families with the threshold 0.6. -/
theorem no_candidate_below_threshold_witness :
    process_output (globalsV5 (3 / 5)) 1 bufV5zero 1280 720 = Outcome.returns [] ∧
      process_output (globalsV8 (3 / 5)) 1 bufV8zero 1280 720 = Outcome.returns [] := by
  obtain ⟨h5v, h5c, -, h5P, h5N, -⟩ := globalsV5_fields (3 / 5)
  obtain ⟨h8v, h8c, -, -, h8N, -⟩ := globalsV8_fields (3 / 5)
  constructor
  · apply (no_candidate_below_threshold (globalsV5 (3 / 5)) 1 bufV5zero 1280 720).1 h5v
    · rw [h5P, h5N]
    · rw [h5P, bufV5zero, bufferOf_length]
    · intro index hi v hv
      rw [h5P, bufV5zero, bufferOf_get _ _ _ (by omega)] at hv
      rw [h5c, ← Option.some.inj hv]
      norm_num
  · apply (no_candidate_below_threshold (globalsV8 (3 / 5)) 1 bufV8zero 1280 720).2
    · rw [h8v]; decide
    · rw [h8c]; norm_num
    · rw [h8N, bufV8zero, bufferOf_length]
    · intro col hcol index hi v hv
      rw [h8N] at hcol
      rw [bufV8zero, bufferOf_get _ _ _ (by omega)] at hv
      rw [h8c, ← Option.some.inj hv]
      norm_num

/-- C4 as stated fails for the anchor-free family with `-con 0`: every class score of the
well-sized `bufV8neg` is `-1`, below the threshold, the scan leaves `prob` at its initial
`0.0`, every slot becomes a candidate and `process_output` returns a box. -/
theorem no_candidate_below_threshold_counterexample :
    bufV8neg.length = 8400 * (4 + (globalsV8 0).NClasses) ∧
      (∀ col, col < (globalsV8 0).NClasses → ∀ index, index < 8400 →
        ∃ v, bufV8neg[8400 * (col + 4) + index]? = some v ∧
          v < (globalsV8 0).confidenceThreshold) ∧
      process_output (globalsV8 0) 1 bufV8neg 1280 720
        = Outcome.returns [fullFrame "person" 0] := by
  obtain ⟨-, hc, -, -, hN, -⟩ := globalsV8_fields 0
  refine ⟨by rw [hN, bufV8neg, bufferOf_length], ?_, process_output_bufV8neg⟩
  intro col hcol index hi
  rw [hN] at hcol
  refine ⟨-1, ?_, by rw [hc]; norm_num⟩
  rw [bufV8neg, bufferOf_get _ _ _ (by omega), if_neg (by omega), if_neg (by omega)]

/-! ## Buffers of the wrong length -/

/-- C5, as the code has it: `process_output` checks no length.  A buffer longer than the
family requires is decoded as its prefix of the required length is, the extra elements
never read (anchor-free: `8400 * (4 + NClasses)`; anchor-based, with
`PredSize = NClasses + 5`: `25200 * PredSize`); an anchor-free buffer shorter than
required, for `NClasses >= 1`, makes `process_output` panic on an out-of-range index and
return no boxes. -/
theorem buffer_length_not_checked (g : Globals) (fuel : Nat) (output : List ℚ) (W H : ℤ) :
    (g.yolover ≠ "v5" → 8400 * (4 + g.NClasses) ≤ output.length →
      process_output g fuel output W H
        = process_output g fuel (output.take (8400 * (4 + g.NClasses))) W H) ∧
    (g.yolover = "v5" → g.PredSize = g.NClasses + 5 → 25200 * g.PredSize ≤ output.length →
      process_output g fuel output W H
        = process_output g fuel (output.take (25200 * g.PredSize)) W H) ∧
    (g.yolover ≠ "v5" → 0 < g.NClasses → output.length < 8400 * (4 + g.NClasses) →
      process_output g fuel output W H = Outcome.panics) := by
  refine ⟨?_, ?_, ?_⟩
  · intro hv _
    apply process_output_congr
    unfold decode
    rw [if_neg hv, if_neg hv]
    apply decodeLoop_congr
    intro i hi
    apply slotV8_congr g _ _ W H i (List.mem_range.1 hi)
    intro j hj
    exact (List.getElem?_take_of_lt hj).symm
  · intro hv hP _
    apply process_output_congr
    unfold decode
    rw [if_pos hv, if_pos hv]
    apply decodeLoop_congr
    intro i hi
    apply slotV5_congr g _ _ W H i (List.mem_range.1 hi) hP
    intro j hj
    exact (List.getElem?_take_of_lt hj).symm
  · intro hv hN hlen
    unfold process_output
    rw [decode_v8_short g output W H hv hN hlen]

/-- C5 on all-zero buffers one element too long (both families) and one element too
short (anchor-free). -/
theorem buffer_length_not_checked_witness :
    process_output (globalsV8 (3 / 5)) 1 bufV8long 1280 720
        = process_output (globalsV8 (3 / 5)) 1
            (bufV8long.take (8400 * (4 + (globalsV8 (3 / 5)).NClasses))) 1280 720 ∧
      process_output (globalsV5 (3 / 5)) 1 bufV5long 1280 720
        = process_output (globalsV5 (3 / 5)) 1
            (bufV5long.take (25200 * (globalsV5 (3 / 5)).PredSize)) 1280 720 ∧
      process_output (globalsV8 (3 / 5)) 1 bufV8short 1280 720 = Outcome.panics := by
  obtain ⟨h5v, -, -, h5P, h5N, -⟩ := globalsV5_fields (3 / 5)
  obtain ⟨h8v, -, -, -, h8N, -⟩ := globalsV8_fields (3 / 5)
  have h8 : (globalsV8 (3 / 5)).yolover ≠ "v5" := by rw [h8v]; decide
  refine ⟨?_, ?_, ?_⟩
  · exact (buffer_length_not_checked (globalsV8 (3 / 5)) 1 bufV8long 1280 720).1 h8
      (by rw [h8N, bufV8long, bufferOf_length]; norm_num)
  · exact (buffer_length_not_checked (globalsV5 (3 / 5)) 1 bufV5long 1280 720).2.1 h5v
      (by rw [h5P, h5N]) (by rw [h5P, bufV5long, bufferOf_length]; norm_num)
  · exact (buffer_length_not_checked (globalsV8 (3 / 5)) 1 bufV8short 1280 720).2.2 h8
      (by rw [h8N]; norm_num) (by rw [h8N, bufV8short, bufferOf_length]; norm_num)

/-- C5 as stated fails: the anchor-free buffer `bufV8long`, one element too long, and the
anchor-based buffer `bufV5short`, one element too short, are both decoded with no error
(`process_output` returns, here the empty list). -/
theorem buffer_length_counterexample :
    bufV8long.length = 8400 * (4 + (globalsV8 (3 / 5)).NClasses) + 1 ∧
      process_output (globalsV8 (3 / 5)) 1 bufV8long 1280 720 = Outcome.returns [] ∧
      bufV5short.length + 1 = 25200 * (globalsV5 (3 / 5)).PredSize ∧
      process_output (globalsV5 (3 / 5)) 1 bufV5short 1280 720 = Outcome.returns [] := by
  obtain ⟨h5v, h5c, -, h5P, -, -⟩ := globalsV5_fields (3 / 5)
  obtain ⟨h8v, h8c, -, -, h8N, -⟩ := globalsV8_fields (3 / 5)
  refine ⟨by rw [h8N, bufV8long, bufferOf_length], ?_,
    by rw [h5P, bufV5short, bufferOf_length], ?_⟩
  · apply process_output_of_decode_nil
    apply decode_v8_nil _ _ _ _ (by rw [h8v]; decide) (by rw [h8c]; norm_num)
      (by rw [h8N, bufV8long, bufferOf_length]; norm_num)
    intro col hcol index hi v hv
    rw [h8N] at hcol
    rw [bufV8long, bufferOf_get _ _ _ (by omega)] at hv
    rw [h8c, ← Option.some.inj hv]
    norm_num
  · apply process_output_of_decode_nil
    apply decode_v5_nil _ _ _ _ h5v
    intro index hi
    refine ⟨0, ?_, by rw [h5c]; norm_num⟩
    rw [h5P, bufV5short, bufferOf_get _ _ _ (by omega)]

end Yolo
